import Mathlib

/-!
Verification of the chunking / retrieval / reranking / guardrail core of the
AWS-Kiro RAG pipeline demo.  The two Python sources embedded here are
`backend/python/main.py` (FastAPI backend) and `python_backend/app.py`
(Flask backend).  Text is modelled as `List Char`; Python `int` as `Int`
(or `Nat` where the source only ever produces non-negative values); Python
`float` as `ℚ` — exact rational arithmetic in place of IEEE doubles, which
agrees with the source on every comparison made here except at inputs of
astronomically large size (the threshold constants 0.7, 0.4, 1.3, 0.8 are
at least 0.1 away from any reachable boundary value at human-scale inputs).
Transcendental operations coming from numpy / the remote Bedrock service
(`sqrt`, `log`, the embedding calls themselves, NLTK's trained sentence
tokenizer, LangChain's splitters) are external to the repository and are
passed in as explicit function parameters.
-/

/-! ## Python string primitives over `List Char` -/

/-- Python whitespace characters, as used by `str.split()` / `str.strip()`
with no arguments: space, tab, newline, carriage return, vertical tab,
form feed. -/
def pyIsSpace (c : Char) : Bool :=
  c = ' ' || c = '\t' || c = '\n' || c = '\r' || c = '\x0b' || c = '\x0c'

/-- Python `s.lstrip()`. -/
def pyStripLeft (l : List Char) : List Char := l.dropWhile pyIsSpace

/-- Python `s.rstrip()`. -/
def pyStripRight (l : List Char) : List Char := (l.reverse.dropWhile pyIsSpace).reverse

/-- Python `s.strip()` with no arguments: drop leading and trailing whitespace. -/
def pyStrip (l : List Char) : List Char := pyStripRight (pyStripLeft l)

/-- Auxiliary for `pySplit`; the second argument is the current word, reversed. -/
def pySplitAux : List Char → List Char → List (List Char)
  | [], w => if w.isEmpty then [] else [w.reverse]
  | c :: cs, w =>
    if pyIsSpace c then
      if w.isEmpty then pySplitAux cs [] else w.reverse :: pySplitAux cs []
    else pySplitAux cs (c :: w)

/-- Python `s.split()` with no arguments: the maximal runs of
non-whitespace characters, i.e. the whitespace-delimited tokens. -/
def pySplit (l : List Char) : List (List Char) := pySplitAux l []

/-- Punctuation marks that the NLTK word tokenizer separates from adjacent
words in plain ASCII prose. -/
def nltkIsPunct (c : Char) : Bool :=
  c = '.' || c = ',' || c = ';' || c = ':' || c = '!' || c = '?'

/-- Auxiliary for `word_tokenize`: split one whitespace-delimited word into
punctuation tokens and maximal punctuation-free runs. -/
def nltkTokAux : List Char → List Char → List (List Char)
  | [], w => if w.isEmpty then [] else [w.reverse]
  | c :: cs, w =>
    if nltkIsPunct c then
      if w.isEmpty then [c] :: nltkTokAux cs []
      else w.reverse :: [c] :: nltkTokAux cs []
    else nltkTokAux cs (c :: w)

/-- Model of `nltk.word_tokenize` on plain ASCII prose (the library itself is
an external trained tokenizer): whitespace-delimited words with punctuation
marks split off as tokens of their own, e.g. `"hello."` gives two tokens
`"hello"` and `"."`.  The point the claims turn on — punctuation counts as
extra tokens, so the count can exceed `(pySplit l).length` — is exactly the
behaviour of the real tokenizer. -/
def word_tokenize (l : List Char) : List (List Char) :=
  (pySplit l).flatMap (fun w => nltkTokAux w [])

/-- Slice `l[a:b]` for `0 ≤ a ≤ b` already clamped, as used where the source
indexes with non-negative bounds. -/
def sliceN (l : List Char) (a b : Nat) : List Char := (l.take b).drop a

/-- Last `n` characters of `l` (Python `l[-n:]` for `0 < n ≤ len l`). -/
def takeRightL (n : Nat) (l : List Char) : List Char := l.drop (l.length - n)

/-- Clamp a Python slice/find index into `[0, n]`: negative values count
from the end of the string. -/
def pyClampIndex (n : Nat) (a : Int) : Nat :=
  if a < 0 then (a + n).toNat else min a.toNat n

/-- Python slice `s[a:b]` on arbitrary `int` endpoints. -/
def pySlice (s : List Char) (a b : Int) : List Char :=
  (s.take (pyClampIndex s.length b)).drop (pyClampIndex s.length a)

/-- Auxiliary for `pyFindFrom`: first position (counted from `i`) where
`pat` is a prefix of the remaining text. -/
def findSubAux (pat : List Char) : List Char → Nat → Option Nat
  | [], i => if pat.isEmpty then some i else none
  | c :: cs, i =>
    if pat.isPrefixOf (c :: cs) then some i else findSubAux pat cs (i + 1)

/-- Python `s.find(pat, start)`: index of the first occurrence of `pat` at
or after `start` (start clamped Python-style), or `-1` when absent. -/
def pyFindFrom (s pat : List Char) (start : Int) : Int :=
  let st := pyClampIndex s.length start
  match findSubAux pat (s.drop st) 0 with
  | some j => ((st + j : Nat) : Int)
  | none => -1

/-- Index of the last occurrence of `target` in `l`, if any
(Python `s.rfind(t)`, with `none` for `-1`). -/
def rfindChar (target : Char) : List Char → Option Nat
  | [] => none
  | c :: cs =>
    match rfindChar target cs with
    | some i => some (i + 1)
    | none => if c = target then some 0 else none

/-- Scanner for `countSubstr` on a non-empty pattern; fuel-driven (each step
consumes at least one character, so `len(s) + 1` fuel suffices). -/
def countSubstrGo (pat : List Char) : Nat → List Char → Nat
  | 0, _ => 0
  | _fuel + 1, [] => 0
  | fuel + 1, c :: cs =>
    if pat.isPrefixOf (c :: cs) then
      1 + countSubstrGo pat fuel ((c :: cs).drop pat.length)
    else countSubstrGo pat fuel cs

/-- Number of non-overlapping occurrences of `pat` in `s`, scanning from the
left — Python `s.count(pat)` (which returns `len(s) + 1` on the empty
pattern). -/
def countSubstr (s pat : List Char) : Nat :=
  if pat.isEmpty then s.length + 1 else countSubstrGo pat (s.length + 1) s

/-- Python `pat in s` (substring containment). -/
def containsSub (s pat : List Char) : Bool :=
  match findSubAux pat s 0 with
  | some _ => true
  | none => false

/-- Python `s.lower()` restricted to ASCII (the sources only lowercase
queries and chunk text for word comparison). -/
def pyLower (l : List Char) : List Char := l.map Char.toLower

/-! ## `backend/python/main.py`: the pydantic `Chunk` record and the four
chunking strategies -/

/-- Model of the pydantic `Chunk` record of `backend/python/main.py`
(lines 78–87). -/
structure MChunk where
  id : String
  content : List Char
  start_index : Int
  end_index : Int
  word_count : Nat
  char_count : Nat
  parent_id : Option String := none
  is_child : Option Bool := none
  children_ids : Option (List String) := none
deriving DecidableEq

/-- Loop of `chunk_fixed_size` (main.py lines 134–156): `for i in
range(0, len(text), step)` with `step = max(1, chunk_size - overlap)`;
windows whose stripped content is empty are dropped; the loop breaks once a
window reaches the end of the text.  Structured on explicit fuel so that the
kernel can evaluate it; `text.length + 1` fuel always suffices since `i`
advances by at least 1 per iteration and the loop runs only while
`i < len(text)`. -/
def chunk_fixed_size_go (text : List Char) (chunk_size overlap : Nat) :
    Nat → Nat → List MChunk → List MChunk
  | 0, _, acc => acc
  | fuel + 1, i, acc =>
    if i < text.length then
      let endIdx := min (i + chunk_size) text.length
      let content := sliceN text i endIdx
      let acc' :=
        if (pyStrip content).isEmpty then acc
        else acc ++ [{ id := "chunk-" ++ toString (acc.length + 1),
                       content := content,
                       start_index := (i : Int), end_index := (endIdx : Int),
                       word_count := (pySplit content).length,
                       char_count := content.length }]
      if text.length ≤ endIdx then acc'
      else chunk_fixed_size_go text chunk_size overlap fuel
             (i + max 1 (chunk_size - overlap)) acc'
    else acc

/-- Model of `chunk_fixed_size` (main.py lines 134–156).  The request sizes
are modelled as `Nat` (`max(1, chunk_size - overlap)` is the truncated
subtraction composed with `max 1`). -/
def chunk_fixed_size (text : List Char) (chunk_size overlap : Nat) : List MChunk :=
  chunk_fixed_size_go text chunk_size overlap (text.length + 1) 0 []

/-- Loop of `chunk_sentence_based` (main.py lines 158–201), one step per
sentence; the final partial chunk is flushed when the sentence list is
exhausted.  State: remaining sentences, `current_chunk`, `current_start`,
accumulated chunks. -/
def chunk_sentence_based_go (text : List Char) (max_size overlap : Nat) :
    List (List Char) → List Char → Int → List MChunk → List MChunk
  | [], current, current_start, chunks =>
    if (pyStrip current).isEmpty then chunks
    else chunks ++ [{ id := "chunk-" ++ toString (chunks.length + 1),
                      content := pyStrip current,
                      start_index := current_start,
                      end_index := current_start + current.length,
                      word_count := (pySplit current).length,
                      char_count := current.length }]
  | sentence :: rest, current, current_start, chunks =>
    if current.length + sentence.length > max_size ∧ ¬ current.isEmpty then
      let chunks' := chunks ++ [{ id := "chunk-" ++ toString (chunks.length + 1),
                                  content := pyStrip current,
                                  start_index := current_start,
                                  end_index := current_start + current.length,
                                  word_count := (pySplit current).length,
                                  char_count := current.length }]
      if 0 < overlap then
        let overlap_text := if overlap < current.length then takeRightL overlap current else current
        let current' := overlap_text ++ [' '] ++ sentence
        let current_start' :=
          max 0 (current_start + current'.length - (overlap : Int) - sentence.length)
        chunk_sentence_based_go text max_size overlap rest current' current_start' chunks'
      else
        chunk_sentence_based_go text max_size overlap rest sentence
          (pyFindFrom text sentence current_start) chunks'
    else
      let current_start' :=
        if current.isEmpty then
          pyFindFrom text sentence (if chunks.isEmpty then 0 else current_start)
        else current_start
      let current' := current ++ (if current.isEmpty then [] else [' ']) ++ sentence
      chunk_sentence_based_go text max_size overlap rest current' current_start' chunks

/-- Model of `chunk_sentence_based` (main.py lines 158–201).  The NLTK punkt
sentence tokenizer is an external trained model and is passed in as
`sent_tok`. -/
def chunk_sentence_based (sent_tok : List Char → List (List Char))
    (text : List Char) (max_size overlap : Nat) : List MChunk :=
  chunk_sentence_based_go text max_size overlap (sent_tok text) [] 0 []

/-- Separator scanner for `re.split` with the blank-line pattern of
`chunk_paragraph_based`: a newline, a greedy run of whitespace, then a final
newline.  A match starting at a newline extends to the last newline inside
the maximal whitespace run that follows. -/
def reBlankLineSplitGo : Nat → List Char → List Char → List (List Char)
  | 0, rest, acc => [(acc.reverse) ++ rest]
  | _fuel + 1, [], acc => [acc.reverse]
  | fuel + 1, c :: cs, acc =>
    if c = '\n' then
      match rfindChar '\n' (cs.takeWhile pyIsSpace) with
      | some p => acc.reverse :: reBlankLineSplitGo fuel (cs.drop (p + 1)) []
      | none => reBlankLineSplitGo fuel cs (c :: acc)
    else reBlankLineSplitGo fuel cs (c :: acc)

/-- Model of `re.split` on the blank-line pattern used by
`chunk_paragraph_based` (main.py line 278). -/
def reBlankLineSplit (l : List Char) : List (List Char) :=
  reBlankLineSplitGo (l.length + 1) l []

/-- Loop of `chunk_paragraph_based` (main.py lines 276–311): short
paragraphs become one chunk, long ones are re-split by
`chunk_fixed_size(para, max_size, 0)` and re-numbered; empty paragraphs are
skipped without advancing the offset; otherwise the offset advances by
`len(para) + 2`. -/
def chunk_paragraph_based_go (max_size : Nat) :
    List (List Char) → Int → List MChunk → List MChunk
  | [], _, chunks => chunks
  | para0 :: rest, current_index, chunks =>
    let para := pyStrip para0
    if para.isEmpty then chunk_paragraph_based_go max_size rest current_index chunks
    else
      let chunks' :=
        if para.length ≤ max_size then
          chunks ++ [{ id := "chunk-" ++ toString (chunks.length + 1),
                       content := para,
                       start_index := current_index,
                       end_index := current_index + para.length,
                       word_count := (pySplit para).length,
                       char_count := para.length }]
        else
          (chunk_fixed_size para max_size 0).foldl
            (fun cks sub =>
              cks ++ [{ id := "chunk-" ++ toString (cks.length + 1),
                        content := sub.content,
                        start_index := current_index + sub.start_index,
                        end_index := current_index + sub.end_index,
                        word_count := sub.word_count,
                        char_count := sub.char_count }]) chunks
      chunk_paragraph_based_go max_size rest (current_index + para.length + 2) chunks'

/-- Model of `chunk_paragraph_based` (main.py lines 276–311). -/
def chunk_paragraph_based (text : List Char) (max_size : Nat) : List MChunk :=
  chunk_paragraph_based_go max_size (reBlankLineSplit text) 0 []

/-- Python `x or default` on an optional int: `None` and `0` are falsy. -/
def pyOrDefault (x : Option Nat) (d : Nat) : Nat :=
  match x with
  | none => d
  | some n => if n = 0 then d else n

/-- Model of `chunk_hierarchical` (main.py lines 203–270).  LangChain's
`RecursiveCharacterTextSplitter` is external library code: it is passed in
as `splitter seps size ov t`, giving the pieces for separator priority
list `seps`, chunk size `size` and overlap `ov`.  Parent and child offsets
are recovered by first-occurrence search exactly as in the source; the
parent chunk is emitted before its children, carrying the children's ids. -/
def chunk_hierarchical
    (splitter : List String → Nat → Nat → List Char → List (List Char))
    (text : List Char) (parent_size child_size overlap : Nat) : List MChunk :=
  let parents := splitter ["\n\n", "\n", ". ", " ", ""] parent_size overlap text
  (parents.enum.map (fun pe =>
    let parent_id := "parent-" ++ toString (pe.1 + 1)
    let pcontent := pe.2
    let parent_start := pyFindFrom text pcontent 0
    let childs := splitter [". ", " ", ""] child_size (overlap / 2) pcontent
    let childChunks := childs.enum.map (fun ce =>
      let child_id := parent_id ++ "-child-" ++ toString (ce.1 + 1)
      let rel := pyFindFrom pcontent ce.2 0
      let cstart := parent_start + rel
      ({ id := child_id, content := ce.2,
         start_index := cstart, end_index := cstart + ce.2.length,
         word_count := (pySplit ce.2).length, char_count := ce.2.length,
         parent_id := some parent_id, is_child := some true } : MChunk))
    ({ id := parent_id, content := pcontent,
       start_index := parent_start,
       end_index := parent_start + pcontent.length,
       word_count := (pySplit pcontent).length, char_count := pcontent.length,
       is_child := some false,
       children_ids := some (childs.enum.map (fun ce =>
         parent_id ++ "-child-" ++ toString (ce.1 + 1))) } : MChunk) :: childChunks)).flatten

/-- Model of the `/chunk` endpoint `chunk_text` (main.py lines 395–418).
The whole dispatch sits inside `try: ... except Exception`, and FastAPI's
`HTTPException` derives from `Exception`, so the 400 raised for an unknown
strategy is caught by the handler and re-raised as a 500 whose detail is
`"Chunking failed: " + str(e)`.  Errors are modelled as
`(status code, detail)`; the Python `str()` rendering of the caught
exception is library-defined (current starlette renders a keyword-built
`HTTPException(status_code, detail)` as `"<status>: <detail>"`, older
versions as the empty string), so it is the parameter `strExc` applied to
the exception's `(status code, detail)` pair. -/
def chunk_text (strExc : Nat × String → String)
    (sent_tok : List Char → List (List Char))
    (splitter : List String → Nat → Nat → List Char → List (List Char))
    (text : List Char) (strategy : String) (chunk_size overlap : Nat)
    (parent_chunk_size child_chunk_size : Option Nat) :
    Except (Nat × String) (List MChunk) :=
  let inner : Except (Nat × String) (List MChunk) :=
    if strategy = "fixed-size" then .ok (chunk_fixed_size text chunk_size overlap)
    else if strategy = "sentence" then
      .ok (chunk_sentence_based sent_tok text chunk_size overlap)
    else if strategy = "hierarchical" then
      .ok (chunk_hierarchical splitter text (pyOrDefault parent_chunk_size 800)
            (pyOrDefault child_chunk_size 200) overlap)
    else if strategy = "paragraph" then .ok (chunk_paragraph_based text chunk_size)
    else .error (400, "Unknown chunking strategy: " ++ strategy)
  match inner with
  | .ok chunks => .ok chunks
  | .error e => .error (500, "Chunking failed: " ++ strExc e)

/-! ## `python_backend/app.py`: the Flask backend's chunk dictionaries and
chunking strategies -/

namespace AppPy

/-- Model of the chunk dictionaries built by `DocumentProcessor` in
`python_backend/app.py`: every strategy fills `content`, `word_count`,
`char_count` and `strategy`; the remaining keys are strategy-dependent.
The `id` key — a fresh random UUID per chunk — is nondeterministic external
randomness and is not modelled. -/
structure AppChunk where
  content : List Char
  word_count : Nat
  char_count : Nat
  strategy : String
  sentence_index : Option Nat := none
  chunk_index : Option Nat := none
  paragraph_index : Option Nat := none
  start_char : Option Int := none
  end_char : Option Int := none
  embedding_method : Option String := none
  embedding_model : Option String := none
deriving DecidableEq, Inhabited

/-- Model of `DocumentProcessor.chunk_by_sentences` (app.py lines 283–301):
one chunk per non-blank sentence; `word_count` counts NLTK word tokens of
the raw sentence, `content` and `char_count` use the stripped sentence.
The NLTK punkt sentence tokenizer is external and passed as `sent_tok`. -/
def chunk_by_sentences (sent_tok : List Char → List (List Char))
    (text : List Char) : List AppChunk :=
  (sent_tok text).enum.filterMap (fun se =>
    if (pyStrip se.2).isEmpty then none
    else some { content := pyStrip se.2, sentence_index := some se.1,
                word_count := (word_tokenize se.2).length,
                char_count := (pyStrip se.2).length,
                strategy := "sentence_based" })

/-- Word-boundary adjustment of `chunk_by_fixed_size` (app.py lines
310–318): the window end and window text, moved back to the last space of
the window when that space sits past 80% of `chunk_size` and the window
does not already reach the end of the text. -/
def cbfsAdjust (text : List Char) (chunk_size start : Int) : Int × List Char :=
  let end0 := start + chunk_size
  let ct0 := pySlice text start end0
  if end0 < (text.length : Int) then
    match rfindChar ' ' ct0 with
    | some ls =>
      if 10 * (ls : Int) > 8 * chunk_size then
        (start + ls, pySlice text start (start + ls))
      else (end0, ct0)
    | none => (end0, ct0)
  else (end0, ct0)

/-- Loop of `DocumentProcessor.chunk_by_fixed_size` (app.py lines 303–337).
`start` is a Python `int` (after a word-boundary adjustment,
`start = end - overlap` can go below zero, where Python slicing counts from
the end of the string — `pySlice` reproduces that).  Fuel-driven: for sane
parameters (`0 < overlap < 0.8 * chunk_size`) `start` strictly increases and
`len(text) + 1` iterations always finish; for adversarial parameters the
Python loop itself can fail to advance (even loop forever), and every
theorem below about this loop is proved for all fuel values. -/
def chunk_by_fixed_size_go (text : List Char) (chunk_size overlap : Int) :
    Nat → Int → List AppChunk → List AppChunk
  | 0, _, acc => acc
  | fuel + 1, start, acc =>
    if start < (text.length : Int) then
      let adj := cbfsAdjust text chunk_size start
      let acc' :=
        if (pyStrip adj.2).isEmpty then acc
        else acc ++ [{ content := pyStrip adj.2,
                       start_char := some start, end_char := some adj.1,
                       word_count := (word_tokenize adj.2).length,
                       char_count := (pyStrip adj.2).length,
                       strategy := "fixed_size" }]
      let start' := adj.1 - overlap
      if (text.length : Int) ≤ start' then acc'
      else chunk_by_fixed_size_go text chunk_size overlap fuel start' acc'
    else acc

/-- Model of `DocumentProcessor.chunk_by_fixed_size` (app.py lines 303–337):
character windows of `chunk_size` with a word-boundary adjustment (the last
space of the window, when it sits past 80% of `chunk_size`), dropping
windows whose stripped content is empty; the next window starts `overlap`
characters before the previous end. -/
def chunk_by_fixed_size (text : List Char) (chunk_size overlap : Int) : List AppChunk :=
  chunk_by_fixed_size_go text chunk_size overlap (text.length + 1) 0 []

/-- Scanner for Python `s.split(sep)` with a non-empty literal separator
(keeps empty pieces).  Fuel-driven; each step consumes at least one
character, so `len(s) + 1` fuel suffices. -/
def splitOnSubGo (sep : List Char) : Nat → List Char → List Char → List (List Char)
  | 0, rest, acc => [acc.reverse ++ rest]
  | _fuel + 1, [], acc => [acc.reverse]
  | fuel + 1, c :: cs, acc =>
    if sep.isPrefixOf (c :: cs) then
      acc.reverse :: splitOnSubGo sep fuel ((c :: cs).drop sep.length) []
    else splitOnSubGo sep fuel cs (c :: acc)

/-- Python `s.split(sep)` for a non-empty separator string. -/
def pySplitOnSub (s sep : List Char) : List (List Char) :=
  splitOnSubGo sep (s.length + 1) s []

/-- Model of `DocumentProcessor.chunk_by_paragraphs` (app.py lines 339–355):
split on the literal separator `"\n\n"`, strip, drop blanks. -/
def chunk_by_paragraphs (text : List Char) : List AppChunk :=
  let paragraphs := ((pySplitOnSub text "\n\n".toList).map pyStrip).filter
    (fun p => ¬ p.isEmpty)
  paragraphs.enum.map (fun pe =>
    { content := pe.2, paragraph_index := some pe.1,
      word_count := (word_tokenize pe.2).length,
      char_count := pe.2.length, strategy := "paragraph_based" })

/-- Model of `DocumentProcessor.chunk_by_semantic` (app.py lines 357–408).
LangChain's `SemanticChunker` (driven by remote Bedrock embeddings) is
external and passed in as `sem_split`, with `.error` standing for a raised
exception — the source catches it and returns `[]`; when Bedrock is not
available (or a non-Bedrock embedding method is requested) the source also
returns `[]` without calling the chunker. -/
def chunk_by_semantic (sem_split : List Char → Except Unit (List (List Char)))
    (bedrock_available : Bool) (text : List Char)
    (embedding_method embedding_model : String) : List AppChunk :=
  if embedding_method = "bedrock" ∧ bedrock_available then
    match sem_split text with
    | .error _ => []
    | .ok chunk_texts =>
      chunk_texts.enum.filterMap (fun ce =>
        if (pyStrip ce.2).isEmpty then none
        else some { content := pyStrip ce.2, chunk_index := some ce.1,
                    word_count := (word_tokenize ce.2).length,
                    char_count := (pyStrip ce.2).length,
                    strategy := "semantic_based",
                    embedding_method := some embedding_method,
                    embedding_model := some embedding_model })
  else []

/-- Whitespace-run collapsing step of `clean_text` (the first `re.sub`);
fuel-driven, `len + 1` fuel suffices. -/
def collapseWsGo : Nat → List Char → List Char
  | 0, rest => rest
  | _fuel + 1, [] => []
  | fuel + 1, c :: cs =>
    if pyIsSpace c then ' ' :: collapseWsGo fuel (cs.dropWhile pyIsSpace)
    else c :: collapseWsGo fuel cs

/-- Characters kept by the second `re.sub` of `clean_text`: word characters
(ASCII model of backslash-w), whitespace, and sentence punctuation. -/
def cleanKeep (c : Char) : Bool :=
  c.isAlphanum || c = '_' || pyIsSpace c ||
    c = '.' || c = '!' || c = '?' || c = ',' || c = ';' || c = ':'

/-- Model of `DocumentProcessor.clean_text` (app.py lines 273–279): strip,
collapse whitespace runs to single spaces, then remove special characters. -/
def clean_text (text : List Char) : List Char :=
  (collapseWsGo (text.length + 1) (pyStrip text)).filter cleanKeep

/-- Model of the chunking phase of the `/api/process-document` route
(app.py lines 504–609): validation of the input text, dispatch on the
strategy string, and the produced chunk list.  The embedding /
visualisation / statistics phase that follows in the route consumes the
same chunk list and never changes it or turns success into an error, so the
model returns the chunk list; errors are `(status code, message)`. -/
def process_document (sent_tok : List Char → List (List Char))
    (sem_split : List Char → Except Unit (List (List Char)))
    (bedrock_available : Bool) (text : List Char) (strategy : String)
    (chunk_size overlap : Int) (embedding_method embedding_model : String) :
    Except (Nat × String) (List AppChunk) :=
  if (pyStrip text).isEmpty then .error (400, "Text is required")
  else
    let cleaned_text := clean_text text
    if strategy = "sentence_based" then .ok (chunk_by_sentences sent_tok cleaned_text)
    else if strategy = "fixed_size" then
      .ok (chunk_by_fixed_size cleaned_text chunk_size overlap)
    else if strategy = "paragraph_based" then .ok (chunk_by_paragraphs cleaned_text)
    else if strategy = "semantic_based" then
      .ok (chunk_by_semantic sem_split bedrock_available cleaned_text
            embedding_method embedding_model)
    else .error (400, "Invalid chunking strategy")

end AppPy

/-! ## `backend/python/main.py`: guardrails -/

/-- Model of one guardrail finding dictionary built by `run_guardrails`
(main.py lines 675–728). -/
structure GFinding where
  id : String
  name : String
  status : String
  message : String
  severity : String
deriving DecidableEq

/-- Does this chunk share at least one lowercased whitespace-delimited word
with the query (the set-intersection test of main.py lines 682–685)? -/
def sharesQueryWord (query_words : List (List Char)) (c : MChunk) : Bool :=
  (pySplit (pyLower c.content)).any (fun w => query_words.contains w)

/-- Model of `run_guardrails` (main.py lines 675–728): a context-relevance
finding (fraction of chunks sharing a lowercase word with the query,
thresholds 0.7 / 0.4, ratio defined as 0 on an empty chunk list) and a
token-length finding (tokens estimated as `len(prompt.split()) * 1.3`,
thresholds 2000 / 4000).  The `int(...)` figures interpolated into the
messages are the floors of the corresponding non-negative rationals,
computed by natural division. -/
def run_guardrails (query : List Char) (chunks : List MChunk) (prompt : List Char) :
    List GFinding :=
  let query_words := pySplit (pyLower query)
  let relevant_chunks := chunks.countP (sharesQueryWord query_words)
  let relevance_ratio : ℚ :=
    if chunks.isEmpty then 0 else (relevant_chunks : ℚ) / (chunks.length : ℚ)
  let pctNum : Nat := if chunks.isEmpty then 0 else (100 * relevant_chunks) / chunks.length
  let relFinding : GFinding :=
    if relevance_ratio ≥ 7/10 then
      { id := "context-relevance", name := "Context Relevance", status := "pass",
        message := toString pctNum ++ "% of context is relevant", severity := "high" }
    else if relevance_ratio ≥ 2/5 then
      { id := "context-relevance", name := "Context Relevance", status := "warning",
        message := "Only " ++ toString pctNum ++ "% of context is relevant",
        severity := "high" }
    else
      { id := "context-relevance", name := "Context Relevance", status := "fail",
        message := "Low relevance: " ++ toString pctNum ++ "%", severity := "high" }
  let wc := (pySplit prompt).length
  let estimated_tokens : ℚ := (wc : ℚ) * (13/10)
  let tokNum : Nat := (wc * 13) / 10
  let tokFinding : GFinding :=
    if estimated_tokens ≤ 2000 then
      { id := "token-length", name := "Token Length", status := "pass",
        message := toString tokNum ++ " tokens (within limits)", severity := "high" }
    else if estimated_tokens ≤ 4000 then
      { id := "token-length", name := "Token Length", status := "warning",
        message := toString tokNum ++ " tokens (approaching limit)", severity := "high" }
    else
      { id := "token-length", name := "Token Length", status := "fail",
        message := toString tokNum ++ " tokens (exceeds limit)", severity := "high" }
  [relFinding, tokFinding]

/-! ## `python_backend/app.py`: similarity search and reranking -/

namespace AppPy

/-- Result dictionary of `/api/search-chunks` (app.py lines 838–868): the
chunk's keys spread into the result (the ones reranking reads are kept
explicitly), plus the search and reranking scores.  Keys a reranker has not
set yet are `none` (Python `r.get(key, 0)` reads them as 0). -/
structure SearchRes where
  content : List Char
  word_count : Nat
  char_count : Nat
  strategy : String
  similarity_score : ℚ
  initial_rank : Nat
  chunk_index : Nat
  bm25_score : Option ℚ := none
  cross_encoder_score : Option ℚ := none
  diversity_score : Option ℚ := none
  length_score : Option ℚ := none
  keyword_score : Option ℚ := none
  combined_score : Option ℚ := none
  rank : Option Nat := none
deriving DecidableEq, Inhabited

/-- Dot product of two equally-long vectors (`np.dot`). -/
def dotQ (a b : List ℚ) : ℚ := ((a.zip b).map (fun p => p.1 * p.2)).foldl (· + ·) 0

/-- Cosine similarity (`sklearn.metrics.pairwise.cosine_similarity`):
normalised dot product.  `sqrtQ` is the square root — an irrational,
floating-point operation passed in as a parameter; none of the proved
properties depend on its values. -/
def cosineSim (sqrtQ : ℚ → ℚ) (a b : List ℚ) : ℚ :=
  dotQ a b / (sqrtQ (dotQ a a) * sqrtQ (dotQ b b))

/-- Euclidean-distance similarity `1 / (1 + ||a - b||)` (app.py lines
825–827). -/
def euclideanSim (sqrtQ : ℚ → ℚ) (a b : List ℚ) : ℚ :=
  1 / (1 + sqrtQ (((a.zip b).map (fun p => (p.1 - p.2) ^ 2)).foldl (· + ·) 0))

/-- Metric dispatch of `search_chunks` (app.py lines 822–831): `cosine`,
`euclidean`, `dot_product`, and — for any other metric string — the final
`else` branch silently computes cosine similarity. -/
def computeSimilarities (sqrtQ : ℚ → ℚ) (metric : String) (q : List ℚ)
    (embs : List (List ℚ)) : List ℚ :=
  if metric = "cosine" then embs.map (fun e => cosineSim sqrtQ q e)
  else if metric = "euclidean" then embs.map (fun e => euclideanSim sqrtQ q e)
  else if metric = "dot_product" then embs.map (fun e => dotQ e q)
  else embs.map (fun e => cosineSim sqrtQ q e)

/-- Model of `np.argsort(similarities)[::-1]`: indices with their scores,
sorted by ascending score and reversed.  (numpy's default quicksort leaves
the order of tied scores unspecified; a stable sort is used here and no
property proved below depends on tie order.) -/
def argsortDesc (sims : List ℚ) : List (Nat × ℚ) :=
  (sims.enum.mergeSort (fun a b => a.2 ≤ b.2)).reverse

/-- Largest element of a list of rationals (Python `max` on a non-empty
list; 0 on the empty list, which the source never reaches). -/
def listMaxQ : List ℚ → ℚ
  | [] => 0
  | x :: xs => xs.foldl max x

/-- Per-term score of the simplified BM25 of `rerank_bm25` (app.py lines
638–647); `content` is the already-lowercased chunk text, `all0` the full
result list (only its contents and count are read, which reranking never
mutates).  `logQ` models `np.log`. -/
def bm25TermScore (logQ : ℚ → ℚ) (all0 : List SearchRes) (content : List Char)
    (term : List Char) : ℚ :=
  let tf := countSubstr content term
  if 0 < tf then
    let doc_len : ℚ := ((pySplit content).length : ℚ)
    let avg_doc_len : ℚ :=
      ((all0.map (fun r => ((pySplit r.content).length : ℚ))).foldl (· + ·) 0) /
        (all0.length : ℚ)
    let df := all0.countP (fun r => containsSub (pyLower r.content) term)
    let idf := logQ (((all0.length : ℚ) + 1) / ((df : ℚ) + 1))
    idf * ((tf : ℚ) * (3/2 + 1)) /
      ((tf : ℚ) + 3/2 * (1 - 3/4 + 3/4 * (doc_len / avg_doc_len)))
  else 0

/-- BM25 score of one result: sum over the query terms (app.py line 638). -/
def bm25ScoreOf (logQ : ℚ → ℚ) (all0 : List SearchRes)
    (query_terms : List (List Char)) (content : List Char) : ℚ :=
  query_terms.foldl (fun s t => s + bm25TermScore logQ all0 content t) 0

/-- In-place loop of `rerank_bm25` (app.py lines 634–651): result `j`'s
`combined_score` normalises by the maximum over the `bm25_score` keys as
they stand at step `j` — already set for earlier results, just set for
result `j`, and read as 0 (`r.get('bm25_score', 0)`) for later ones. -/
def rerank_bm25_go (logQ : ℚ → ℚ) (query_terms : List (List Char))
    (all0 : List SearchRes) : List SearchRes → List SearchRes → List SearchRes
  | done, [] => done
  | done, item :: rest =>
    let bm := bm25ScoreOf logQ all0 query_terms (pyLower item.content)
    let mx := listMaxQ ((done.map (fun r => r.bm25_score.getD 0)) ++ [bm] ++
      rest.map (fun _ => (0 : ℚ)))
    let combined := (7/10) * item.similarity_score + (3/10) * (bm / max 1 mx)
    rerank_bm25_go logQ query_terms all0
      (done ++ [{ item with bm25_score := some bm, combined_score := some combined }]) rest

/-- Python `sorted(results, key=lambda x: x['combined_score'], reverse=True)`:
stable descending sort by combined score. -/
def pySortedByCombinedDesc (l : List SearchRes) : List SearchRes :=
  l.mergeSort (fun a b => b.combined_score.getD 0 ≤ a.combined_score.getD 0)

/-- Model of `rerank_bm25` (app.py lines 630–653). -/
def rerank_bm25 (logQ : ℚ → ℚ) (results : List SearchRes) (query : List Char) :
    List SearchRes :=
  pySortedByCombinedDesc (rerank_bm25_go logQ (pySplit (pyLower query)) results [] results)

/-- First index of substring `pat` in `s` (Python `s.find(pat)` at the call
sites where containment was already checked; the fallback value is
unreachable there). -/
def findSubIdx (s pat : List Char) : Nat :=
  match findSubAux pat s 0 with
  | some i => i
  | none => s.length

/-- Model of `rerank_cross_encoder` (app.py lines 655–682): set overlap over
set union of lowercased words, plus an early-position bonus of
`0.1 / (1 + pos / len(content))` per query word occurring as a substring.
The Python iteration is over a `set` in unspecified order; the score is a
sum of rationals, so the order does not matter and the first-occurrence
deduplicated word list is used. -/
def rerank_cross_encoder (results : List SearchRes) (query : List Char) :
    List SearchRes :=
  pySortedByCombinedDesc (results.map (fun r =>
    let qws := (pySplit (pyLower query)).dedup
    let cws := (pySplit (pyLower r.content)).dedup
    let overlap := qws.countP (fun w => cws.contains w)
    let total := ((qws ++ cws).dedup).length
    let base : ℚ := (overlap : ℚ) / (max 1 (total : ℚ))
    let cross := base + ((qws.filter (fun w => containsSub (pyLower r.content) w)).map
      (fun w =>
        let position := findSubIdx (pyLower r.content) w
        (1 / (1 + (position : ℚ) / (r.content.length : ℚ))) * (1/10))).foldl (· + ·) 0
    { r with cross_encoder_score := some cross,
             combined_score := some ((3/5) * r.similarity_score + (2/5) * cross) }))

/-- Combined 0.7-similarity / 0.3-diversity score of a candidate against the
already-selected results (app.py lines 696–712). -/
def diversityCombined (reranked : List SearchRes) (candidate : SearchRes) : ℚ :=
  let ds := ((reranked.map (fun s =>
    let cw := (pySplit (pyLower candidate.content)).dedup
    let sw := (pySplit (pyLower s.content)).dedup
    let ov := cw.countP (fun w => sw.contains w)
    let tot := ((cw ++ sw).dedup).length
    (1 : ℚ) - (ov : ℚ) / (max 1 (tot : ℚ)))).foldl (· + ·) 0) / (reranked.length : ℚ)
  (7/10) * candidate.similarity_score + (3/10) * ds

/-- Selection loop of `rerank_diversity` (app.py lines 693–716): first
candidate with a strictly larger combined score wins; the initial best
score is -1 with no candidate. -/
def selectBest (reranked : List SearchRes) :
    List SearchRes → Option (SearchRes × ℚ) → Option (SearchRes × ℚ)
  | [], best => best
  | c :: cs, best =>
    let sc := diversityCombined reranked c
    let bestScore := match best with | none => (-1 : ℚ) | some b => b.2
    if sc > bestScore then selectBest reranked cs (some (c, sc))
    else selectBest reranked cs best

/-- While-loop of `rerank_diversity` (app.py lines 692–723).  Fuel-driven:
when a best candidate exists the remaining list shrinks, so `len(results)`
fuel suffices; when every combined score is ≤ -1 (possible only with large
negative `similarity_score`) the Python loop never terminates, and the model
returns the results selected so far. -/
def rerank_diversity_go : Nat → List SearchRes → List SearchRes → List SearchRes
  | 0, reranked, _ => reranked
  | fuel + 1, reranked, remaining =>
    if remaining.isEmpty then reranked
    else
      match selectBest reranked remaining none with
      | some best =>
        rerank_diversity_go fuel
          (reranked ++ [{ best.1 with diversity_score := some best.2 }])
          (remaining.erase best.1)
      | none => rerank_diversity_go fuel reranked remaining

/-- Model of `rerank_diversity` (app.py lines 684–723). -/
def rerank_diversity (results : List SearchRes) : List SearchRes :=
  if results.length ≤ 1 then results
  else
    match results with
    | [] => []
    | r0 :: rest => rerank_diversity_go results.length [r0] rest

/-- Model of `rerank_length_penalty` (app.py lines 725–741): score peaking
at 150 words. -/
def rerank_length_penalty (results : List SearchRes) : List SearchRes :=
  pySortedByCombinedDesc (results.map (fun r =>
    let length_score : ℚ :=
      if r.word_count ≤ 150 then (r.word_count : ℚ) / 150 else 150 / (r.word_count : ℚ)
    { r with length_score := some length_score,
             combined_score := some ((4/5) * r.similarity_score + (1/5) * length_score) }))

/-- Model of `rerank_keyword_boost` (app.py lines 743–765): 0.1 per exact
substring match, 0.2 more when the keyword occurs in the first sentence
(the prefix before the first period), keyword score capped at 1 before
blending. -/
def rerank_keyword_boost (results : List SearchRes) (query : List Char) :
    List SearchRes :=
  let query_keywords := pySplit (pyLower query)
  pySortedByCombinedDesc (results.map (fun r =>
    let content := pyLower r.content
    let kscore := (query_keywords.map (fun kw =>
      if containsSub content kw then
        (countSubstr content kw : ℚ) * (1/10) +
          (if containsSub (content.takeWhile (fun c => c ≠ '.')) kw then (1/5 : ℚ) else 0)
      else 0)).foldl (· + ·) 0
    { r with keyword_score := some kscore,
             combined_score := some ((3/4) * r.similarity_score + (1/4) * min 1 kscore) }))

/-- Method dispatch inside the `try` of `apply_reranking` (app.py lines
613–625); an unknown method falls through to `return results`.  In this
embedding the five concrete scorers are total, so the dispatch never
returns `.error`; the `except` arm of the source is modelled by
`apply_reranking_core` below over an arbitrary, possibly-failing scorer. -/
def pyDispatchRerank (logQ : ℚ → ℚ) (query : List Char) (method : String)
    (results : List SearchRes) : Except String (List SearchRes) :=
  if method = "bm25" then .ok (rerank_bm25 logQ results query)
  else if method = "cross_encoder" then .ok (rerank_cross_encoder results query)
  else if method = "diversity" then .ok (rerank_diversity results)
  else if method = "length_penalty" then .ok (rerank_length_penalty results)
  else if method = "keyword_boost" then .ok (rerank_keyword_boost results query)
  else .ok results

/-- The `try/except` shell of `apply_reranking` (app.py lines 611–628): when
the scoring method raises, the original result list is returned. -/
def apply_reranking_core
    (scorer : String → List SearchRes → Except String (List SearchRes))
    (results : List SearchRes) (method : String) : List SearchRes :=
  match scorer method results with
  | .ok r => r
  | .error _ => results

/-- Model of `apply_reranking` (app.py lines 611–628). -/
def apply_reranking (logQ : ℚ → ℚ) (results : List SearchRes) (query : List Char)
    (method : String) : List SearchRes :=
  apply_reranking_core (pyDispatchRerank logQ query) results method

/-- Model of the retrieval core of `/api/search-chunks` (app.py lines
819–868): similarity of the query embedding to every chunk embedding under
the requested metric, descending argsort, over-fetch of
`min(top_k * 3, len(chunks))` candidates, optional reranking (skipped for
method `"none"` or at most one candidate), truncation to `top_k` and final
rank assignment.  The query embedding itself comes from the remote Bedrock
service and is a parameter; chunks and embeddings are positionally aligned
session state. -/
def search_chunks (sqrtQ logQ : ℚ → ℚ) (query : List Char)
    (query_embedding : List ℚ) (chunks : List AppChunk) (embs : List (List ℚ))
    (top_k : Nat) (similarity_metric reranking_method : String) : List SearchRes :=
  let sims := computeSimilarities sqrtQ similarity_metric query_embedding embs
  let initial_k := min (top_k * 3) chunks.length
  let top := (argsortDesc sims).take initial_k
  let initial_results := top.enum.map (fun ie =>
    let chunk := chunks.getD ie.2.1 default
    ({ content := chunk.content, word_count := chunk.word_count,
       char_count := chunk.char_count, strategy := chunk.strategy,
       similarity_score := ie.2.2, initial_rank := ie.1 + 1,
       chunk_index := ie.2.1 } : SearchRes))
  let results :=
    if reranking_method ≠ "none" ∧ 1 < initial_results.length then
      (apply_reranking logQ initial_results query reranking_method).take top_k
    else initial_results.take top_k
  results.enum.map (fun re => { re.2 with rank := some (re.1 + 1) })

/-! ## `python_backend/app.py`: Bedrock embedding batches -/

/-- The `dimensions` entries of the `BEDROCK_MODELS['embedding']` table
(app.py lines 67–84). -/
def bedrockEmbeddingDims (model_id : String) : Option Nat :=
  if model_id = "amazon.titan-embed-text-v1" then some 1536
  else if model_id = "amazon.titan-embed-text-v2:0" then some 1024
  else if model_id = "cohere.embed-english-v3" then some 1024
  else none

/-- Model of `BedrockService.get_bedrock_embedding` (app.py lines 144–182):
fails when Bedrock is unavailable or the model id has an unsupported
prefix; otherwise one remote `invoke_model` call, passed in as `invoke`
(`.error` standing for any raised exception). -/
def get_bedrock_embedding (invoke : String → List Char → Except Unit (List ℚ))
    (bedrock_available : Bool) (text : List Char) (model_id : String) :
    Except Unit (List ℚ) :=
  if ¬ bedrock_available then .error ()
  else if "amazon.titan-embed".data.isPrefixOf model_id.data then invoke model_id text
  else if "cohere.embed".data.isPrefixOf model_id.data then invoke model_id text
  else .error ()

/-- Python `texts[i:i+n]` batching loop (`range(0, len(texts), n)`);
fuel-driven, `len + 1` fuel suffices for `0 < n`. -/
def batchesOf (n : Nat) : Nat → List (List Char) → List (List (List Char))
  | 0, l => if l.isEmpty then [] else [l]
  | fuel + 1, l => if l.isEmpty then [] else l.take n :: batchesOf n fuel (l.drop n)

/-- Model of `BedrockService.get_bedrock_embeddings_batch` (app.py lines
184–206): per item, a failed embedding call is caught and replaced by a
zero vector of the model's tabulated dimensionality (a `KeyError` on an
untabulated model id propagates and aborts the whole call); the batches are
concatenated.  The returned value is the plain list of vectors — nothing
else (in particular no count of the substitutions) is reported. -/
def get_bedrock_embeddings_batch (invoke : String → List Char → Except Unit (List ℚ))
    (bedrock_available : Bool) (texts : List (List Char)) (model_id : String)
    (batch_size : Nat := 25) : Except Unit (List (List ℚ)) :=
  let item : List Char → Except Unit (List ℚ) := fun t =>
    match get_bedrock_embedding invoke bedrock_available t model_id with
    | .ok v => .ok v
    | .error _ =>
      match bedrockEmbeddingDims model_id with
      | some d => .ok (List.replicate d (0 : ℚ))
      | none => .error ()
  match (batchesOf batch_size (texts.length + 1) texts).mapM (fun b => b.mapM item) with
  | .ok bs => .ok bs.flatten
  | .error e => .error e

/-- Number of items of `texts` whose individual embedding call fails and is
replaced by a zero vector — the quantity the specification says must be
surfaced to the caller.  (An analysis-side definition: the source computes
no such count.) -/
def substitutionCount (invoke : String → List Char → Except Unit (List ℚ))
    (bedrock_available : Bool) (texts : List (List Char)) (model_id : String) : Nat :=
  texts.countP (fun t =>
    match get_bedrock_embedding invoke bedrock_available t model_id with
    | .ok _ => false
    | .error _ => true)

end AppPy

/-! ## Lemmas: `pySplit` and `pyStrip` -/

/-- Splitting a run of whitespace flushes at most the pending word. -/
theorem pySplitAux_all_space (t : List Char) (ht : ∀ c ∈ t, pyIsSpace c) :
    ∀ w, pySplitAux t w = if w.isEmpty then [] else [w.reverse] := by
  induction t with
  | nil => intro w; rfl
  | cons c cs ih =>
    intro w
    have hc : pyIsSpace c = true := ht c (by simp)
    have hcs : ∀ x ∈ cs, pyIsSpace x := fun x hx => ht x (by simp [hx])
    by_cases hw : w.isEmpty <;>
      simp [pySplitAux, hc, hw, ih hcs]

/-- Appending trailing whitespace does not change the split. -/
theorem pySplitAux_append_space (t : List Char) (ht : ∀ c ∈ t, pyIsSpace c) :
    ∀ l w, pySplitAux (l ++ t) w = pySplitAux l w := by
  intro l
  induction l with
  | nil =>
    intro w
    simp only [List.nil_append]
    rw [pySplitAux_all_space t ht w]
    rfl
  | cons c cs ih =>
    intro w
    by_cases hc : pyIsSpace c <;> by_cases hw : w.isEmpty <;>
      simp [pySplitAux, hc, hw, ih]

/-- Prepending leading whitespace does not change the split. -/
theorem pySplit_space_append (t : List Char) (ht : ∀ c ∈ t, pyIsSpace c) (l : List Char) :
    pySplit (t ++ l) = pySplit l := by
  induction t with
  | nil => rfl
  | cons c cs ih =>
    have hc : pyIsSpace c = true := ht c (by simp)
    have hcs : ∀ x ∈ cs, pyIsSpace x := fun x hx => ht x (by simp [hx])
    simpa [pySplit, pySplitAux, hc] using ih hcs

/-- Decomposition of a list into its trailing-whitespace part. -/
theorem pyStripRight_decomp (l : List Char) :
    l = pyStripRight l ++ (l.reverse.takeWhile pyIsSpace).reverse := by
  conv_lhs => rw [← l.reverse_reverse,
    ← List.takeWhile_append_dropWhile pyIsSpace l.reverse]
  rw [List.reverse_append]
  rfl

/-- Python `split()` ignores the surrounding whitespace removed by
`strip()`. -/
theorem pySplit_strip (l : List Char) : pySplit (pyStrip l) = pySplit l := by
  have h2 : pySplit (pyStrip l) = pySplit (pyStripLeft l) := by
    conv_rhs => rw [pyStripRight_decomp (pyStripLeft l)]
    exact (pySplitAux_append_space _
      (fun c hc => List.mem_takeWhile_imp (List.mem_reverse.mp hc)) _ _).symm
  have h1 : pySplit (pyStripLeft l) = pySplit l := by
    conv_rhs => rw [← List.takeWhile_append_dropWhile pyIsSpace l]
    exact (pySplit_space_append _ (fun c hc => List.mem_takeWhile_imp hc) _).symm
  exact h2.trans h1

/-- The NLTK token count is insensitive to surrounding whitespace. -/
theorem word_tokenize_strip (l : List Char) :
    word_tokenize (pyStrip l) = word_tokenize l := by
  unfold word_tokenize
  rw [pySplit_strip]

/-- Stripping never lengthens a string. -/
theorem pyStrip_length_le (l : List Char) : (pyStrip l).length ≤ l.length := by
  have h1 : (pyStripRight (pyStripLeft l)).length ≤ (pyStripLeft l).length := by
    simpa [pyStripRight] using ((@List.dropWhile_sublist _ ((pyStripLeft l).reverse) pyIsSpace).length_le).trans (by simp)
  exact h1.trans ((@List.dropWhile_sublist _ l pyIsSpace).length_le)

/-- A strip that removes nothing is the identity. -/
theorem pyStrip_eq_self_of_length (l : List Char)
    (h : (pyStrip l).length = l.length) : pyStrip l = l := by
  have hL : (pyStripLeft l).length ≤ l.length :=
    (@List.dropWhile_sublist _ l pyIsSpace).length_le
  have hR : (pyStrip l).length ≤ (pyStripLeft l).length := by
    simpa [pyStrip, pyStripRight] using ((@List.dropWhile_sublist _ ((pyStripLeft l).reverse) pyIsSpace).length_le).trans (by simp)
  have h1 : (pyStripLeft l).length = l.length := by omega
  have hLeft : pyStripLeft l = l :=
    (@List.dropWhile_sublist _ l pyIsSpace).eq_of_length h1
  have h2 : (pyStrip l).length = (pyStripLeft l).length := by omega
  have hRight : pyStripRight (pyStripLeft l) = pyStripLeft l := by
    have hrev : ((pyStripLeft l).reverse.dropWhile pyIsSpace).length =
        (pyStripLeft l).reverse.length := by
      have := h2
      simp only [pyStrip, pyStripRight, List.length_reverse] at this ⊢
      omega
    have := (@List.dropWhile_sublist _ ((pyStripLeft l).reverse) pyIsSpace).eq_of_length hrev
    simp [pyStripRight, this]
  calc pyStrip l = pyStripRight (pyStripLeft l) := rfl
    _ = pyStripLeft l := hRight
    _ = l := hLeft

/-! ## Lemmas: the `main.py` fixed-size loop invariant -/

/-- Every chunk the `chunk_fixed_size` loop emits is a window of the text —
its content is the slice `[s, min(s + chunk_size, len))`, the recorded
offsets are the window bounds, and the counts are computed from the
content. -/
theorem chunk_fixed_size_go_mem (text : List Char) (cs ov : Nat) :
    ∀ fuel i acc c, c ∈ chunk_fixed_size_go text cs ov fuel i acc →
      c ∈ acc ∨ ∃ s : Nat, s < text.length ∧
        c.content = sliceN text s (min (s + cs) text.length) ∧
        c.start_index = (s : Int) ∧
        c.end_index = ((min (s + cs) text.length : Nat) : Int) ∧
        c.word_count = (pySplit c.content).length ∧
        c.char_count = c.content.length ∧
        ¬ (pyStrip c.content).isEmpty := by
  intro fuel
  induction fuel with
  | zero => intro i acc c hc; exact .inl hc
  | succ fuel ih =>
    intro i acc c hc
    simp only [chunk_fixed_size_go] at hc
    by_cases hi : i < text.length
    · rw [if_pos hi] at hc
      by_cases hne : (pyStrip (sliceN text i (min (i + cs) text.length))).isEmpty
      · rw [if_pos hne] at hc
        by_cases hstop : text.length ≤ min (i + cs) text.length
        · rw [if_pos hstop] at hc; exact .inl hc
        · rw [if_neg hstop] at hc; exact ih _ _ _ hc
      · rw [if_neg hne] at hc
        have hwin : ∀ d, d ∈ acc ++
            [({ id := "chunk-" ++ toString (acc.length + 1),
                content := sliceN text i (min (i + cs) text.length),
                start_index := (i : Int),
                end_index := ((min (i + cs) text.length : Nat) : Int),
                word_count := (pySplit (sliceN text i (min (i + cs) text.length))).length,
                char_count := (sliceN text i (min (i + cs) text.length)).length } : MChunk)] →
            d ∈ acc ∨ ∃ s : Nat, s < text.length ∧
              d.content = sliceN text s (min (s + cs) text.length) ∧
              d.start_index = (s : Int) ∧
              d.end_index = ((min (s + cs) text.length : Nat) : Int) ∧
              d.word_count = (pySplit d.content).length ∧
              d.char_count = d.content.length ∧
              ¬ (pyStrip d.content).isEmpty := by
          intro d hd
          rcases List.mem_append.mp hd with hd | hd
          · exact .inl hd
          · right
            refine ⟨i, hi, ?_⟩
            simp only [List.mem_singleton] at hd
            subst hd
            exact ⟨rfl, rfl, rfl, rfl, rfl, hne⟩
        by_cases hstop : text.length ≤ min (i + cs) text.length
        · rw [if_pos hstop] at hc; exact hwin c hc
        · rw [if_neg hstop] at hc
          rcases ih _ _ _ hc with hacc | hw
          · exact hwin c hacc
          · exact .inr hw
    · rw [if_neg hi] at hc; exact .inl hc

/-! ## Lemmas: Python slices and the `app.py` fixed-size loop invariant -/

theorem pyClampIndex_le (n : Nat) (a : Int) : pyClampIndex n a ≤ n := by
  unfold pyClampIndex; split_ifs <;> omega

/-- Length of a Python slice in terms of the clamped endpoints. -/
theorem length_pySlice (s : List Char) (a b : Int) :
    (pySlice s a b).length = pyClampIndex s.length b - pyClampIndex s.length a := by
  simp only [pySlice, List.length_drop, List.length_take]
  unfold pyClampIndex
  split_ifs <;> omega

/-- The slice `s[a : a + k]` has at most `k` characters (for `0 ≤ k`; with a
negative end Python slices can be longer than the endpoint difference, but
the source always slices `text[start : start + chunk_size]`). -/
theorem length_pySlice_add_le (s : List Char) (a k : Int) (hk : 0 ≤ k) :
    (pySlice s a (a + k)).length ≤ k.toNat := by
  rw [length_pySlice]
  unfold pyClampIndex
  split_ifs <;> omega

theorem rfindChar_lt_length (t : Char) :
    ∀ l i, rfindChar t l = some i → i < l.length := by
  intro l
  induction l with
  | nil => intro i h; simp [rfindChar] at h
  | cons c cs ih =>
    intro i h
    simp only [rfindChar] at h
    cases hr : rfindChar t cs with
    | some j =>
      rw [hr] at h
      have hj := ih j hr
      simp only [Option.some.injEq] at h
      simp only [List.length_cons]
      omega
    | none =>
      rw [hr] at h
      by_cases hc : c = t
      · rw [if_pos hc] at h
        simp only [Option.some.injEq] at h
        simp only [List.length_cons]
        omega
      · rw [if_neg hc] at h; cases h

/-- The adjusted window is the slice between `start` and the adjusted end,
which never exceeds `start + chunk_size`. -/
theorem AppPy.cbfsAdjust_spec (text : List Char) (cs start : Int) (hcs : 0 < cs) :
    (AppPy.cbfsAdjust text cs start).2 =
      pySlice text start (AppPy.cbfsAdjust text cs start).1 ∧
    start ≤ (AppPy.cbfsAdjust text cs start).1 ∧
    (AppPy.cbfsAdjust text cs start).1 ≤ start + cs := by
  unfold AppPy.cbfsAdjust
  by_cases h1 : start + cs < (text.length : Int)
  · rw [if_pos h1]
    cases hr : rfindChar ' ' (pySlice text start (start + cs)) with
    | some ls =>
      dsimp only
      by_cases h2 : 10 * (ls : Int) > 8 * cs
      · rw [if_pos h2]
        refine ⟨rfl, by omega, ?_⟩
        have h3 := rfindChar_lt_length ' ' _ _ hr
        have h4 := length_pySlice_add_le text start cs (le_of_lt hcs)
        have : (ls : Int) < cs := by omega
        omega
      · rw [if_neg h2]; exact ⟨rfl, by omega, le_refl _⟩
    | none => dsimp only; exact ⟨rfl, by omega, le_refl _⟩
  · rw [if_neg h1]; dsimp only; exact ⟨rfl, by omega, le_refl _⟩

/-- Every chunk the `chunk_by_fixed_size` loop emits is the stripped text of
a window `pySlice text s e` with recorded bounds `s`, `e`, the NLTK token
count of the unstripped window, and — for positive `chunk_size` — an end
within `chunk_size` of the start. -/
theorem AppPy.chunk_by_fixed_size_go_mem (text : List Char) (cs ov : Int) :
    ∀ fuel start acc c, c ∈ AppPy.chunk_by_fixed_size_go text cs ov fuel start acc →
      c ∈ acc ∨ ∃ s e : Int,
        c.start_char = some s ∧ c.end_char = some e ∧
        c.content = pyStrip (pySlice text s e) ∧
        ¬ (pyStrip (pySlice text s e)).isEmpty ∧
        c.word_count = (word_tokenize (pySlice text s e)).length ∧
        c.char_count = (pyStrip (pySlice text s e)).length ∧
        (0 < cs → s ≤ e ∧ e ≤ s + cs) := by
  intro fuel
  induction fuel with
  | zero => intro start acc c hc; exact .inl hc
  | succ fuel ih =>
    intro start acc c hc
    simp only [AppPy.chunk_by_fixed_size_go] at hc
    by_cases hstart : start < (text.length : Int)
    · rw [if_pos hstart] at hc
      by_cases hne : (pyStrip (AppPy.cbfsAdjust text cs start).2).isEmpty
      · rw [if_pos hne] at hc
        by_cases hstop : (text.length : Int) ≤ (AppPy.cbfsAdjust text cs start).1 - ov
        · rw [if_pos hstop] at hc; exact .inl hc
        · rw [if_neg hstop] at hc; exact ih _ _ _ hc
      · rw [if_neg hne] at hc
        have hwin : ∀ d, d ∈ acc ++
            [({ content := pyStrip (AppPy.cbfsAdjust text cs start).2,
                start_char := some start,
                end_char := some (AppPy.cbfsAdjust text cs start).1,
                word_count := (word_tokenize (AppPy.cbfsAdjust text cs start).2).length,
                char_count := (pyStrip (AppPy.cbfsAdjust text cs start).2).length,
                strategy := "fixed_size" } : AppPy.AppChunk)] →
            d ∈ acc ∨ ∃ s e : Int,
              d.start_char = some s ∧ d.end_char = some e ∧
              d.content = pyStrip (pySlice text s e) ∧
              ¬ (pyStrip (pySlice text s e)).isEmpty ∧
              d.word_count = (word_tokenize (pySlice text s e)).length ∧
              d.char_count = (pyStrip (pySlice text s e)).length ∧
              (0 < cs → s ≤ e ∧ e ≤ s + cs) := by
          intro d hd
          rcases List.mem_append.mp hd with hd | hd
          · exact .inl hd
          · right
            refine ⟨start, (AppPy.cbfsAdjust text cs start).1, ?_⟩
            simp only [List.mem_singleton] at hd
            subst hd
            by_cases hcs : 0 < cs
            · obtain ⟨hct, hse, hle⟩ := AppPy.cbfsAdjust_spec text cs start hcs
              rw [← hct]
              exact ⟨rfl, rfl, rfl, by simpa using hne, rfl, rfl,
                fun _ => ⟨hse, hle⟩⟩
            · -- chunk_size not positive: the spec clause is vacuous, but the
              -- window equation still holds since the adjustment cannot fire
              have hct : (AppPy.cbfsAdjust text cs start).2 =
                  pySlice text start (AppPy.cbfsAdjust text cs start).1 := by
                unfold AppPy.cbfsAdjust
                by_cases h1 : start + cs < (text.length : Int)
                · rw [if_pos h1]
                  cases hr : rfindChar ' ' (pySlice text start (start + cs)) with
                  | some ls =>
                    dsimp only
                    by_cases h2 : 10 * (ls : Int) > 8 * cs
                    · rw [if_pos h2]
                    · rw [if_neg h2]
                  | none => rfl
                · rw [if_neg h1]
              rw [← hct]
              exact ⟨rfl, rfl, rfl, by simpa using hne, rfl, rfl,
                fun h => absurd h hcs⟩
        by_cases hstop : (text.length : Int) ≤ (AppPy.cbfsAdjust text cs start).1 - ov
        · rw [if_pos hstop] at hc; exact hwin c hc
        · rw [if_neg hstop] at hc
          rcases ih _ _ _ hc with hacc | hw
          · exact hwin c hacc
          · exact .inr hw
    · rw [if_neg hstart] at hc; exact .inl hc

/-- A slice of positive length `k` is `k` characters of the text starting at
the clamped start, and the clamped end sits exactly `k` past the clamped
start. -/
theorem pySlice_full (s : List Char) (a b : Int) (k : Nat) (hk : 0 < k)
    (h : (pySlice s a b).length = k) :
    pySlice s a b = (s.drop (pyClampIndex s.length a)).take k ∧
      pyClampIndex s.length b = pyClampIndex s.length a + k := by
  rw [length_pySlice] at h
  have h2 : pyClampIndex s.length b = pyClampIndex s.length a + k := by omega
  constructor
  · rw [pySlice, List.drop_take, h2]
    congr 1
    omega
  · exact h2

/-- A window `s[a:b]` with `b ≤ a + k` that yields a full `k` characters
cannot extend past the end of the text. -/
theorem pySlice_full_le (s : List Char) (a b : Int) (k : Nat) (hk : 0 < k)
    (hab : b ≤ a + k) (h : (pySlice s a b).length = k) : b ≤ (s.length : Int) := by
  rw [length_pySlice] at h
  revert h hab
  unfold pyClampIndex
  split_ifs <;> omega

/-- Moving a slice endpoint back by `ov` moves its clamp back by `ov`, as
long as the endpoint is in range and the clamp stays positive. -/
theorem pyClampIndex_sub (n : Nat) (b : Int) (ov : Nat) (hb : b ≤ (n : Int))
    (hov : ov < pyClampIndex n b) :
    pyClampIndex n (b - (ov : Int)) = pyClampIndex n b - ov := by
  revert hov
  unfold pyClampIndex
  split_ifs <;> omega

/-- A clamped window of `sliceN` below the text length. -/
theorem length_sliceN (text : List Char) (a b : Nat) (hb : b ≤ text.length) :
    (sliceN text a b).length = b - a := by
  simp only [sliceN, List.length_drop, List.length_take]
  omega

theorem sliceN_eq (text : List Char) (a b : Nat) :
    sliceN text a b = (text.drop a).take (b - a) := by
  rw [sliceN, List.drop_take]

/-! ## Lemmas: batching and `mapM` for the Bedrock batch model -/

/-- `mapM` of a function that never fails is the `map` of its values. -/
theorem exceptMapM_ok {α β : Type} (f : α → Except Unit β) (g : α → β)
    (h : ∀ a, f a = .ok (g a)) : ∀ l : List α, l.mapM f = .ok (l.map g) := by
  intro l
  induction l with
  | nil => simp [List.mapM_nil]; rfl
  | cons a as ih =>
    rw [List.mapM_cons, h a, ih]
    rfl

/-- Concatenating the batches gives back the original text list, whatever
the fuel (short fuel just makes the final batch bigger). -/
theorem flatten_batchesOf (n : Nat) :
    ∀ fuel (l : List (List Char)), (AppPy.batchesOf n fuel l).flatten = l := by
  intro fuel
  induction fuel with
  | zero =>
    intro l
    by_cases hl : l.isEmpty
    · simp [AppPy.batchesOf, hl, List.isEmpty_iff.mp hl]
    · simp [AppPy.batchesOf, hl]
  | succ f ih =>
    intro l
    by_cases hl : l.isEmpty
    · simp [AppPy.batchesOf, hl, List.isEmpty_iff.mp hl]
    · simp [AppPy.batchesOf, hl, ih, List.take_append_drop]

/-! ## Lemmas: descending argsort -/

/-- The reversed argsort is sorted by non-increasing score. -/
theorem argsortDesc_pairwise (sims : List ℚ) :
    List.Pairwise (fun a b : Nat × ℚ => b.2 ≤ a.2) (AppPy.argsortDesc sims) := by
  unfold AppPy.argsortDesc
  rw [List.pairwise_reverse]
  have hs := @List.sorted_mergeSort (Nat × ℚ)
    (fun a b => decide (a.2 ≤ b.2))
    (fun a b c hab hbc => by
      simp only [decide_eq_true_eq] at *
      exact le_trans hab hbc)
    (fun a b => by
      simp only [Bool.or_eq_true, decide_eq_true_eq]
      exact le_total a.2 b.2)
    sims.enum
  exact hs.imp (fun h => of_decide_eq_true h)

/-- The descending argsort is a permutation of the enumerated scores. -/
theorem argsortDesc_perm (sims : List ℚ) :
    (AppPy.argsortDesc sims).Perm sims.enum := by
  unfold AppPy.argsortDesc
  exact (List.reverse_perm _).trans (List.mergeSort_perm _ _)

/-! ## Claim C1 -/

/-- C1, counterexample.  The claim says every chunk's `word_count` equals
the number of whitespace-delimited tokens of its `content`; in
`DocumentProcessor.chunk_by_fixed_size` the input `"hello."` yields one
chunk with `word_count = 2` (NLTK counts the final period as its own token)
while its content `"hello."` is a single whitespace-delimited token. -/
theorem claim1_counterexample :
    ¬ (∀ c ∈ AppPy.chunk_by_fixed_size "hello.".toList 500 50,
        c.word_count = (pySplit c.content).length) := by
  decide

/-- C1, amended: every produced chunk has non-empty trimmed content; in
`main.py`'s `chunk_fixed_size` the `word_count` equals the number of
whitespace-delimited tokens of the content, while in `app.py`'s
`chunk_by_fixed_size` and `chunk_by_sentences` it equals the NLTK word-token
count of the chunk text (punctuation marks counted as tokens of their own),
which can exceed the whitespace token count. -/
theorem claim1_amended :
    (∀ (text : List Char) (cs ov : Nat), ∀ c ∈ chunk_fixed_size text cs ov,
      ¬ (pyStrip c.content).isEmpty ∧ c.word_count = (pySplit c.content).length) ∧
    (∀ (text : List Char) (cs ov : Int), ∀ c ∈ AppPy.chunk_by_fixed_size text cs ov,
      ¬ c.content.isEmpty ∧ c.word_count = (word_tokenize c.content).length ∧
        c.char_count = c.content.length) ∧
    (∀ (sent_tok : List Char → List (List Char)) (text : List Char),
      ∀ c ∈ AppPy.chunk_by_sentences sent_tok text,
      ¬ c.content.isEmpty ∧ c.word_count = (word_tokenize c.content).length ∧
        c.char_count = c.content.length) := by
  refine ⟨?main, ?appfix, ?appsent⟩
  · intro text cs ov c hc
    rcases chunk_fixed_size_go_mem text cs ov _ _ _ c hc with h | ⟨s, _, _, _, _, hwc, _, hne⟩
    · cases h
    · exact ⟨hne, hwc⟩
  · intro text cs ov c hc
    rcases AppPy.chunk_by_fixed_size_go_mem text cs ov _ _ _ c hc with
      h | ⟨s, e, _, _, hcontent, hne, hwc, hcc, _⟩
    · cases h
    · refine ⟨by rw [hcontent]; simpa using hne, ?_, by rw [hcc, hcontent]⟩
      rw [hwc, hcontent, ← word_tokenize_strip]
  · intro sent_tok text c hc
    rcases List.mem_filterMap.mp hc with ⟨se, _, hf⟩
    by_cases hne : (pyStrip se.2).isEmpty
    · rw [if_pos hne] at hf; cases hf
    · rw [if_neg hne] at hf
      cases hf
      refine ⟨by simpa using hne, ?_, rfl⟩
      simp only
      rw [← word_tokenize_strip]

/-- C1, witness: the single chunk of `chunk_fixed_size "ab" 2 1` has
non-blank content and the stated word count. -/
theorem claim1_witness :
    ¬ (pyStrip ((⟨"chunk-1", "ab".toList, 0, 2, 1, 2, none, none, none⟩ :
        MChunk)).content).isEmpty ∧
    ((⟨"chunk-1", "ab".toList, 0, 2, 1, 2, none, none, none⟩ : MChunk)).word_count =
      (pySplit ((⟨"chunk-1", "ab".toList, 0, 2, 1, 2, none, none, none⟩ :
        MChunk)).content).length :=
  claim1_amended.1 "ab".toList 2 1 _ (by decide)

/-! ## Claim C2 -/

/-- One non-final iteration of the fixed-size loop with a non-blank window. -/
theorem cfsg_step (text : List Char) (cs ov fuel i : Nat) (acc : List MChunk)
    (hi : i < text.length)
    (hne : ¬ (pyStrip (sliceN text i (min (i + cs) text.length))).isEmpty)
    (hcont : ¬ (text.length ≤ min (i + cs) text.length)) :
    chunk_fixed_size_go text cs ov (fuel + 1) i acc =
      chunk_fixed_size_go text cs ov fuel (i + max 1 (cs - ov))
        (acc ++ [({ id := "chunk-" ++ toString (acc.length + 1),
                    content := sliceN text i (min (i + cs) text.length),
                    start_index := (i : Int),
                    end_index := ((min (i + cs) text.length : Nat) : Int),
                    word_count := (pySplit (sliceN text i (min (i + cs) text.length))).length,
                    char_count := (sliceN text i (min (i + cs) text.length)).length } :
          MChunk)]) := by
  simp only [chunk_fixed_size_go]
  rw [if_pos hi, if_neg hne, if_neg hcont]

/-- The final iteration of the fixed-size loop: a non-blank window that
reaches the end of the text is appended and the loop breaks. -/
theorem cfsg_last (text : List Char) (cs ov fuel i : Nat) (acc : List MChunk)
    (hi : i < text.length)
    (hne : ¬ (pyStrip (sliceN text i (min (i + cs) text.length))).isEmpty)
    (hstop : text.length ≤ min (i + cs) text.length) :
    chunk_fixed_size_go text cs ov (fuel + 1) i acc =
      acc ++ [({ id := "chunk-" ++ toString (acc.length + 1),
                 content := sliceN text i (min (i + cs) text.length),
                 start_index := (i : Int),
                 end_index := ((min (i + cs) text.length : Nat) : Int),
                 word_count := (pySplit (sliceN text i (min (i + cs) text.length))).length,
                 char_count := (sliceN text i (min (i + cs) text.length)).length } :
        MChunk)] := by
  simp only [chunk_fixed_size_go]
  rw [if_pos hi, if_neg hne, if_pos hstop]

/-- Run of the `chunkSize = 200, overlap = 50` loop on a 1000-character text
whose seven windows all have non-blank content: starting at window `k`, the
remaining `m = 7 - k` iterations append `m` chunks and the last one ends at
offset 1000. -/
theorem c2_run (text : List Char) (htext : text.length = 1000)
    (hw : ∀ k, k < 7 →
      ¬ (pyStrip (sliceN text (150 * k) (min (150 * k + 200) 1000))).isEmpty) :
    ∀ m k, k + m = 7 → 0 < m → ∀ fuel acc, m ≤ fuel →
      (chunk_fixed_size_go text 200 50 fuel (150 * k) acc).length = acc.length + m ∧
      (chunk_fixed_size_go text 200 50 fuel (150 * k) acc).getLast?.map
        MChunk.end_index = some 1000 := by
  intro m
  induction m with
  | zero => intro k hk hpos; omega
  | succ m ih =>
    intro k hk _ fuel acc hfuel
    obtain ⟨fuel', rfl⟩ : ∃ f', fuel = f' + 1 := ⟨fuel - 1, by omega⟩
    by_cases hm : m = 0
    · subst hm
      have hk6 : k = 6 := by omega
      subst hk6
      rw [cfsg_last text 200 50 fuel' (150 * 6) acc
        (by rw [htext]; norm_num)
        (by rw [htext]; exact hw 6 (by norm_num))
        (by rw [htext]; norm_num)]
      refine ⟨by simp, ?_⟩
      rw [List.getLast?_concat]
      simp only [Option.map_some']
      rw [htext]
      norm_num
    · rw [cfsg_step text 200 50 fuel' (150 * k) acc
        (by rw [htext]; omega)
        (by rw [htext]; exact hw k (by omega))
        (by rw [htext]; omega)]
      have hik : 150 * k + max 1 (200 - 50) = 150 * (k + 1) := by
        norm_num
        ring
      rw [hik]
      constructor
      · rw [(ih (k + 1) (by omega) (by omega) fuel' _ (by omega)).1]
        simp only [List.length_append, List.length_singleton]
        omega
      · exact (ih (k + 1) (by omega) (by omega) fuel' _ (by omega)).2

set_option maxRecDepth 100000 in
/-- C2, counterexample.  The claim promises exactly 7 chunks for every
1000-character text; a text of 1000 spaces has every window dropped (blank
after trimming) and produces 0 chunks. -/
theorem claim2_counterexample :
    (List.replicate 1000 ' ').length = 1000 ∧
    (chunk_fixed_size (List.replicate 1000 ' ') 200 50).length = 0 ∧
    ¬ ((chunk_fixed_size (List.replicate 1000 ' ') 200 50).length = 7) := by
  have h : (chunk_fixed_size (List.replicate 1000 ' ') 200 50).length = 0 := by decide
  exact ⟨by simp, h, by omega⟩

/-- C2, amended: for a 1000-character text with `chunkSize = 200` and
`overlap = 50` (stride 150), as long as each of the seven windows has
non-blank trimmed content (the source drops blank windows), exactly
`ceil(1000/150) = 7` chunks are produced and the last chunk's end offset is
the text length 1000. -/
theorem claim2_amended (text : List Char) (htext : text.length = 1000)
    (hw : ∀ k, k < 7 →
      ¬ (pyStrip (sliceN text (150 * k) (min (150 * k + 200) 1000))).isEmpty) :
    (chunk_fixed_size text 200 50).length = 7 ∧
    (chunk_fixed_size text 200 50).getLast?.map MChunk.end_index = some 1000 := by
  have h := c2_run text htext hw 7 0 rfl (by norm_num) (text.length + 1) []
    (by rw [htext]; norm_num)
  unfold chunk_fixed_size
  simpa using h

set_option maxRecDepth 100000 in
/-- C2, witness: a 1000-character text of letters `a` satisfies the window
hypothesis and gets exactly 7 chunks, the last ending at 1000. -/
theorem claim2_witness :
    (chunk_fixed_size (List.replicate 1000 'a') 200 50).length = 7 ∧
    (chunk_fixed_size (List.replicate 1000 'a') 200 50).getLast?.map
      MChunk.end_index = some 1000 :=
  claim2_amended (List.replicate 1000 'a') (by simp) (by decide)

/-! ## Claim C3 -/

theorem mem_of_get? {α : Type} {l : List α} {n : Nat} {a : α}
    (h : l.get? n = some a) : a ∈ l := by
  rw [List.get?_eq_getElem?] at h
  obtain ⟨h1, h2⟩ := List.getElem?_eq_some_iff.mp h
  exact h2 ▸ List.getElem_mem h1

/-- A slice between endpoints at most `k` apart (left end first) has at most
`k` characters. -/
theorem length_pySlice_le_of_between (s : List Char) (a b : Int) (k : Nat)
    (h1 : a ≤ b) (h2 : b ≤ a + (k : Int)) : (pySlice s a b).length ≤ k := by
  rw [length_pySlice]
  unfold pyClampIndex
  split_ifs <;> omega

/-- C3, counterexample.  On `"ab\t\t  cdef"` with `chunkSize = 4`,
`overlap = 2`, the all-whitespace middle window is dropped, so chunks 1 and
2 of the output are both full-length yet not window-adjacent: the suffix
`"\t\t"` of chunk 1 differs from the prefix `"  "` of chunk 2. -/
theorem claim3_counterexample :
    (0 : Nat) < 2 ∧ 2 < 4 ∧
    ∃ a b : MChunk,
      (chunk_fixed_size "ab\t\t  cdef".toList 4 2).get? 0 = some a ∧
      (chunk_fixed_size "ab\t\t  cdef".toList 4 2).get? 1 = some b ∧
      a.char_count = 4 ∧ b.char_count = 4 ∧
      ¬ (takeRightL 2 a.content = b.content.take 2) := by
  refine ⟨by norm_num, by norm_num,
    ⟨"chunk-1", "ab\t\t".toList, 0, 4, 1, 4, none, none, none⟩,
    ⟨"chunk-2", "  cd".toList, 4, 8, 1, 4, none, none, none⟩,
    ?_, ?_, ?_, ?_, ?_⟩ <;> decide

/-- C3, amended: the overlap invariant holds whenever the two full-length
chunks additionally come from adjacent windows — in `main.py` when the
start offsets differ by exactly the stride `chunkSize - overlap`, and in
`app.py` when the second chunk starts `overlap` before the first chunk's
recorded end (the loop's step).  The original claim fails when an
intermediate all-whitespace window is dropped between the two chunks. -/
theorem claim3_amended :
    (∀ (text : List Char) (cs ov j : Nat) (a b : MChunk), 0 < ov → ov < cs →
      (chunk_fixed_size text cs ov).get? j = some a →
      (chunk_fixed_size text cs ov).get? (j + 1) = some b →
      a.char_count = cs → b.char_count = cs →
      b.start_index = a.start_index + ((cs : Int) - (ov : Int)) →
      takeRightL ov a.content = b.content.take ov) ∧
    (∀ (text : List Char) (cs ov : Int) (j : Nat) (a b : AppPy.AppChunk)
      (ea sb : Int), 0 < ov → ov < cs →
      (AppPy.chunk_by_fixed_size text cs ov).get? j = some a →
      (AppPy.chunk_by_fixed_size text cs ov).get? (j + 1) = some b →
      (a.char_count : Int) = cs → (b.char_count : Int) = cs →
      a.end_char = some ea → b.start_char = some sb → sb = ea - ov →
      takeRightL ov.toNat a.content = b.content.take ov.toNat) := by
  constructor
  · intro text cs ov j a b hov hovcs hga hgb hca hcb hadj
    have hma := mem_of_get? hga
    have hmb := mem_of_get? hgb
    rcases chunk_fixed_size_go_mem text cs ov _ _ _ a hma with
      h | ⟨sa, hsa, haco, hast, _, _, hacc, _⟩
    · cases h
    rcases chunk_fixed_size_go_mem text cs ov _ _ _ b hmb with
      h | ⟨sb, hsbl, hbco, hbst, _, _, hbcc, _⟩
    · cases h
    have hlena : a.content.length = min (sa + cs) text.length - sa := by
      rw [haco]; exact length_sliceN text sa _ (min_le_right _ _)
    have hlenb : b.content.length = min (sb + cs) text.length - sb := by
      rw [hbco]; exact length_sliceN text sb _ (min_le_right _ _)
    have hfa : min (sa + cs) text.length = sa + cs := by omega
    have hfb : min (sb + cs) text.length = sb + cs := by omega
    have hsb_eq : sb = sa + (cs - ov) := by
      rw [hbst, hast] at hadj
      omega
    have haco2 : a.content = (text.drop sa).take cs := by
      rw [haco, hfa, sliceN_eq]
      congr 1
      omega
    have hbco2 : b.content = (text.drop sb).take cs := by
      rw [hbco, hfb, sliceN_eq]
      congr 1
      omega
    have hlen_a2 : a.content.length = ov + (cs - ov) := by omega
    rw [takeRightL, hlen_a2, haco2, hbco2]
    have h1 : ov + (cs - ov) - ov = cs - ov := by omega
    rw [h1, List.drop_take, List.drop_drop, List.take_take, hsb_eq]
    congr 1
    omega
  · intro text cs ov j a b ea sb hov hovcs hga hgb hca hcb hea hsb hadj
    have hcs : 0 < cs := lt_trans hov hovcs
    have hkpos : 0 < cs.toNat := by omega
    have hovk : ov.toNat < cs.toNat := by omega
    have hma := mem_of_get? hga
    have hmb := mem_of_get? hgb
    rcases AppPy.chunk_by_fixed_size_go_mem text cs ov _ _ _ a hma with
      h | ⟨sa', ea', hsta, hena, hconta, _, _, hcca, hrange_a⟩
    · cases h
    rcases AppPy.chunk_by_fixed_size_go_mem text cs ov _ _ _ b hmb with
      h | ⟨sb', eb', hstb, henb, hcontb, _, _, hccb, hrange_b⟩
    · cases h
    have hea2 : ea' = ea := by
      rw [hena] at hea
      exact Option.some.inj hea
    have hsb2 : sb' = sb := by
      rw [hstb] at hsb
      exact Option.some.inj hsb
    have hadj2 : sb' = ea' - ov := by rw [hea2, hsb2]; exact hadj
    obtain ⟨hsa_le, hsa_ub⟩ := hrange_a hcs
    obtain ⟨hsb_le, hsb_ub⟩ := hrange_b hcs
    have hcsk : (cs.toNat : Int) = cs := Int.toNat_of_nonneg (le_of_lt hcs)
    have hstrip_a : (pyStrip (pySlice text sa' ea')).length = cs.toNat := by omega
    have hstrip_b : (pyStrip (pySlice text sb' eb')).length = cs.toNat := by omega
    have hraw_le_a : (pySlice text sa' ea').length ≤ cs.toNat :=
      length_pySlice_le_of_between text sa' ea' cs.toNat hsa_le (by omega)
    have hraw_le_b : (pySlice text sb' eb').length ≤ cs.toNat :=
      length_pySlice_le_of_between text sb' eb' cs.toNat hsb_le (by omega)
    have hstrip_le_a := pyStrip_length_le (pySlice text sa' ea')
    have hstrip_le_b := pyStrip_length_le (pySlice text sb' eb')
    have hraw_a : (pySlice text sa' ea').length = cs.toNat := by omega
    have hraw_b : (pySlice text sb' eb').length = cs.toNat := by omega
    have hstrip_eq_a : pyStrip (pySlice text sa' ea') = pySlice text sa' ea' :=
      pyStrip_eq_self_of_length _ (by omega)
    have hstrip_eq_b : pyStrip (pySlice text sb' eb') = pySlice text sb' eb' :=
      pyStrip_eq_self_of_length _ (by omega)
    obtain ⟨hslice_a, hclamp_a⟩ := pySlice_full text sa' ea' cs.toNat hkpos hraw_a
    obtain ⟨hslice_b, hclamp_b⟩ := pySlice_full text sb' eb' cs.toNat hkpos hraw_b
    have hea_le_n : ea' ≤ (text.length : Int) :=
      pySlice_full_le text sa' ea' cs.toNat hkpos (by omega) hraw_a
    have hshift : pyClampIndex text.length sb' =
        pyClampIndex text.length ea' - ov.toNat := by
      rw [hadj2]
      have hov_int : ((ov.toNat : Nat) : Int) = ov := Int.toNat_of_nonneg (le_of_lt hov)
      rw [← hov_int]
      refine pyClampIndex_sub text.length ea' ov.toNat hea_le_n ?_
      rw [hclamp_a]
      omega
    have hclampA_le := pyClampIndex_le text.length ea' 
    rw [hconta, hstrip_eq_a, hcontb, hstrip_eq_b, hslice_a, hslice_b]
    have hlen_a3 : ((text.drop (pyClampIndex text.length sa')).take cs.toNat).length =
        ov.toNat + (cs.toNat - ov.toNat) := by
      simp only [List.length_take, List.length_drop]
      omega
    rw [takeRightL, hlen_a3]
    have h1 : ov.toNat + (cs.toNat - ov.toNat) - ov.toNat = cs.toNat - ov.toNat := by
      omega
    rw [h1, List.drop_take, List.drop_drop, List.take_take]
    have h2 : pyClampIndex text.length sb' =
        pyClampIndex text.length sa' + (cs.toNat - ov.toNat) := by
      rw [hshift, hclamp_a]
      omega
    rw [h2]
    congr 1
    omega

/-- C3, witness: on `"abcdef"` with `chunkSize = 4`, `overlap = 2` the two
chunks are window-adjacent and full-length, and the suffix equals the
prefix. -/
theorem claim3_witness :
    takeRightL 2 ((⟨"chunk-1", "abcd".toList, 0, 4, 1, 4, none, none, none⟩ :
      MChunk)).content =
    ((⟨"chunk-2", "cdef".toList, 2, 6, 1, 4, none, none, none⟩ :
      MChunk)).content.take 2 :=
  claim3_amended.1 "abcdef".toList 4 2 0
    ⟨"chunk-1", "abcd".toList, 0, 4, 1, 4, none, none, none⟩
    ⟨"chunk-2", "cdef".toList, 2, 6, 1, 4, none, none, none⟩
    (by norm_num) (by norm_num) (by decide) (by decide) (by decide) (by decide)
    (by decide)

/-! ## Claims C4, C5, C9 -/

/-- Sortedness and head-maximality of the retrieval pipeline
argsort-take-enumerate-wrap shape, for any wrapping functions that carry
the score through unchanged. -/
theorem searchPipeline_props (sims : List ℚ) (ik tk : Nat)
    (f1 : Nat × (Nat × ℚ) → AppPy.SearchRes)
    (hf1 : ∀ ie, (f1 ie).similarity_score = ie.2.2)
    (f2 : Nat × AppPy.SearchRes → AppPy.SearchRes)
    (hf2 : ∀ re, (f2 re).similarity_score = re.2.similarity_score) :
    List.Pairwise (fun x y : AppPy.SearchRes => y.similarity_score ≤ x.similarity_score)
      (((((AppPy.argsortDesc sims).take ik).enum.map f1).take tk).enum.map f2) ∧
    ∀ hd, (((((AppPy.argsortDesc sims).take ik).enum.map f1).take tk).enum.map
        f2).head? = some hd → ∀ s ∈ sims, s ≤ hd.similarity_score := by
  constructor
  · apply List.pairwise_map.mpr
    have hres : List.Pairwise
        (fun x y : AppPy.SearchRes => y.similarity_score ≤ x.similarity_score)
        ((((AppPy.argsortDesc sims).take ik).enum.map f1).take tk) := by
      apply List.Pairwise.sublist (List.take_sublist _ _)
      apply List.pairwise_map.mpr
      have h1 : List.Pairwise (fun a b : Nat × ℚ => b.2 ≤ a.2)
          ((AppPy.argsortDesc sims).take ik) :=
        List.Pairwise.sublist (List.take_sublist _ _) (argsortDesc_pairwise _)
      have h2 : List.Pairwise (fun a b : Nat × ℚ => b.2 ≤ a.2)
          (List.map Prod.snd ((AppPy.argsortDesc sims).take ik).enum) := by
        rw [List.enum_map_snd]
        exact h1
      exact (List.pairwise_map.mp h2).imp
        (fun {a b} h => by rw [hf1, hf1]; exact h)
    have h2' : List.Pairwise
        (fun x y : AppPy.SearchRes => y.similarity_score ≤ x.similarity_score)
        (List.map Prod.snd ((((AppPy.argsortDesc sims).take ik).enum.map
          f1).take tk).enum) := by
      rw [List.enum_map_snd]
      exact hres
    exact (List.pairwise_map.mp h2').imp
      (fun {a b} h => by rw [hf2, hf2]; exact h)
  · intro hd hhd s hs
    rw [List.head?_map] at hhd
    cases hres : (((AppPy.argsortDesc sims).take ik).enum.map f1).take tk with
    | nil => rw [hres] at hhd; simp at hhd
    | cons r0 rest =>
      rw [hres, List.enum_cons] at hhd
      simp only [List.head?_cons, Option.map_some'] at hhd
      have hdsim : hd.similarity_score = r0.similarity_score := by
        rw [← Option.some.inj hhd, hf2]
      have hr0 : ((((AppPy.argsortDesc sims).take ik).enum.map f1)).head? = some r0 := by
        have hh := congrArg List.head? hres
        rw [List.head?_take] at hh
        simp only [List.head?_cons] at hh
        by_cases hk : tk = 0
        · rw [if_pos hk] at hh; cases hh
        · rw [if_neg hk] at hh; exact hh
      rw [List.head?_map] at hr0
      cases htop : ((AppPy.argsortDesc sims).take ik).enum with
      | nil => rw [htop] at hr0; cases hr0
      | cons p0 ptail =>
        rw [htop] at hr0
        simp only [List.head?_cons, Option.map_some'] at hr0
        have hr0sim : r0.similarity_score = p0.2.2 := by
          rw [← Option.some.inj hr0, hf1]
        have hp0 : ((AppPy.argsortDesc sims).take ik).head? = some p0.2 := by
          have h5 := congrArg (fun l => (List.map Prod.snd l).head?) htop
          simp only [List.enum_map_snd, List.map_cons, List.head?_cons] at h5
          exact h5
        rw [List.head?_take] at hp0
        by_cases hik : ik = 0
        · rw [if_pos hik] at hp0; cases hp0
        · rw [if_neg hik] at hp0
          cases hsort : AppPy.argsortDesc sims with
          | nil => rw [hsort] at hp0; cases hp0
          | cons q0 qtail =>
            rw [hsort] at hp0
            simp only [List.head?_cons, Option.some.injEq] at hp0
            obtain ⟨i, hi, hival⟩ := List.mem_iff_getElem.mp hs
            have hlen : i < sims.enum.length := by
              rw [List.enum_length]
              exact hi
            have hget := List.getElem_enum sims i hlen
            have hienum : (i, s) ∈ sims.enum := by
              rw [hival] at hget
              exact hget ▸ List.getElem_mem hlen
            have hmemsort : (i, s) ∈ AppPy.argsortDesc sims :=
              (argsortDesc_perm sims).mem_iff.mpr hienum
            rw [hsort] at hmemsort
            have hsorted := argsortDesc_pairwise sims
            rw [hsort, List.pairwise_cons] at hsorted
            rw [hdsim, hr0sim, ← hp0]
            rcases List.mem_cons.mp hmemsort with h | h
            · rw [← h]
            · exact hsorted.1 _ h

/-- C4: with the cosine metric and no reranking, the search results are
sorted by non-increasing similarity score, and the first result's score is
at least the similarity of every candidate in the corpus (the whole corpus
is argsorted before truncation).  The statement holds for every square-root
model `sqrtQ`: sorting never looks inside the scores' computation. -/
theorem claim4_search_sorted (sqrtQ logQ : ℚ → ℚ) (query : List Char)
    (query_embedding : List ℚ) (chunks : List AppPy.AppChunk)
    (embs : List (List ℚ)) (top_k : Nat) :
    List.Pairwise (fun x y : AppPy.SearchRes => y.similarity_score ≤ x.similarity_score)
      (AppPy.search_chunks sqrtQ logQ query query_embedding chunks embs top_k
        "cosine" "none") ∧
    ∀ hd, (AppPy.search_chunks sqrtQ logQ query query_embedding chunks embs top_k
        "cosine" "none").head? = some hd →
      ∀ s ∈ AppPy.computeSimilarities sqrtQ "cosine" query_embedding embs,
        s ≤ hd.similarity_score := by
  unfold AppPy.search_chunks
  simp only [ne_eq, not_true_eq_false, false_and, if_false]
  exact searchPipeline_props _ _ _ _ (fun ie => rfl) _ (fun re => rfl)

/-- C4, witness: at a concrete corpus of two embeddings the returned list is
sorted by non-increasing similarity. -/
theorem claim4_witness :
    List.Pairwise (fun x y : AppPy.SearchRes => y.similarity_score ≤ x.similarity_score)
      (AppPy.search_chunks (fun x => x) (fun x => x) "q".toList [1]
        [({ content := "a".toList, word_count := 1, char_count := 1,
            strategy := "fixed_size" } : AppPy.AppChunk)] [[2], [3]] 5
        "cosine" "none") :=
  (claim4_search_sorted (fun x => x) (fun x => x) "q".toList [1]
    [({ content := "a".toList, word_count := 1, char_count := 1,
        strategy := "fixed_size" } : AppPy.AppChunk)] [[2], [3]] 5).1

/-- C5: reranking is robust — an unknown method returns the candidates
unchanged, an empty candidate list is returned unchanged by every method,
and the `try/except` shell returns the pre-rerank ordering whenever the
scoring step fails (the five concrete scorers of the source are total, so
the failing case is stated over an arbitrary scorer behind the same
`except`). -/
theorem claim5_rerank_robust :
    (∀ (logQ : ℚ → ℚ) (results : List AppPy.SearchRes) (query : List Char)
      (method : String),
      ¬ (method = "bm25" ∨ method = "cross_encoder" ∨ method = "diversity" ∨
         method = "length_penalty" ∨ method = "keyword_boost") →
      AppPy.apply_reranking logQ results query method = results) ∧
    (∀ (logQ : ℚ → ℚ) (query : List Char) (method : String),
      AppPy.apply_reranking logQ [] query method = []) ∧
    (∀ (scorer : String → List AppPy.SearchRes → Except String (List AppPy.SearchRes))
      (results : List AppPy.SearchRes) (method : String) (e : String),
      scorer method results = .error e →
      AppPy.apply_reranking_core scorer results method = results) := by
  refine ⟨?_, ?_, ?_⟩
  · intro logQ results query method h
    push_neg at h
    obtain ⟨h1, h2, h3, h4, h5⟩ := h
    unfold AppPy.apply_reranking AppPy.apply_reranking_core AppPy.pyDispatchRerank
    rw [if_neg h1, if_neg h2, if_neg h3, if_neg h4, if_neg h5]
  · intro logQ query method
    unfold AppPy.apply_reranking AppPy.apply_reranking_core AppPy.pyDispatchRerank
    split_ifs <;>
      simp [AppPy.rerank_bm25, AppPy.rerank_bm25_go, AppPy.rerank_cross_encoder,
        AppPy.rerank_diversity, AppPy.rerank_length_penalty,
        AppPy.rerank_keyword_boost, AppPy.pySortedByCombinedDesc,
        List.mergeSort_nil]
  · intro scorer results method e h
    unfold AppPy.apply_reranking_core
    rw [h]

/-- C5, witness: an unknown method leaves a concrete one-element candidate
list unchanged, and a failing scorer degrades to the original list. -/
theorem claim5_witness :
    AppPy.apply_reranking (fun x => x)
      [({ content := "a".toList, word_count := 1, char_count := 1,
          strategy := "fixed_size", similarity_score := 1, initial_rank := 1,
          chunk_index := 0 } : AppPy.SearchRes)] "hi".toList "zzz" =
      [({ content := "a".toList, word_count := 1, char_count := 1,
          strategy := "fixed_size", similarity_score := 1, initial_rank := 1,
          chunk_index := 0 } : AppPy.SearchRes)] ∧
    AppPy.apply_reranking_core (fun _ _ => .error "boom")
      [({ content := "a".toList, word_count := 1, char_count := 1,
          strategy := "fixed_size", similarity_score := 1, initial_rank := 1,
          chunk_index := 0 } : AppPy.SearchRes)] "bm25" =
      [({ content := "a".toList, word_count := 1, char_count := 1,
          strategy := "fixed_size", similarity_score := 1, initial_rank := 1,
          chunk_index := 0 } : AppPy.SearchRes)] := by
  constructor
  · exact claim5_rerank_robust.1 (fun x => x) _ "hi".toList "zzz" (by decide)
  · exact claim5_rerank_robust.2.2 (fun _ _ => .error "boom") _ "bm25" "boom" rfl

/-- C9: a similarity metric name other than `cosine`, `euclidean`,
`dot_product` falls into the final `else` of the metric dispatch, which
silently computes cosine similarity, so the whole search returns exactly
the results of a cosine search. -/
theorem claim9_unknown_metric (sqrtQ logQ : ℚ → ℚ) (query : List Char)
    (query_embedding : List ℚ) (chunks : List AppPy.AppChunk)
    (embs : List (List ℚ)) (top_k : Nat) (metric rr : String)
    (h1 : metric ≠ "cosine") (h2 : metric ≠ "euclidean")
    (h3 : metric ≠ "dot_product") :
    AppPy.computeSimilarities sqrtQ metric query_embedding embs =
      AppPy.computeSimilarities sqrtQ "cosine" query_embedding embs ∧
    AppPy.search_chunks sqrtQ logQ query query_embedding chunks embs top_k metric rr =
      AppPy.search_chunks sqrtQ logQ query query_embedding chunks embs top_k
        "cosine" rr := by
  have hsims : AppPy.computeSimilarities sqrtQ metric query_embedding embs =
      AppPy.computeSimilarities sqrtQ "cosine" query_embedding embs := by
    unfold AppPy.computeSimilarities
    rw [if_neg h1, if_neg h2, if_neg h3, if_pos rfl]
  refine ⟨hsims, ?_⟩
  unfold AppPy.search_chunks
  rw [hsims]

/-- C9, witness: the metric `"manhattan"` gives identical search results to
`"cosine"` on a concrete corpus. -/
theorem claim9_witness :
    AppPy.search_chunks (fun x => x) (fun x => x) "q".toList [1]
      [({ content := "a".toList, word_count := 1, char_count := 1,
          strategy := "fixed_size" } : AppPy.AppChunk)] [[2], [3]] 5
      "manhattan" "none" =
    AppPy.search_chunks (fun x => x) (fun x => x) "q".toList [1]
      [({ content := "a".toList, word_count := 1, char_count := 1,
          strategy := "fixed_size" } : AppPy.AppChunk)] [[2], [3]] 5
      "cosine" "none" :=
  (claim9_unknown_metric (fun x => x) (fun x => x) "q".toList [1] _ [[2], [3]] 5
    "manhattan" "none" (by decide) (by decide) (by decide)).2

/-! ## Claim C6 -/

/-- C6, counterexample.  The claim promises an empty chunk sequence (not an
error) on empty input: `process_document` instead rejects empty text with a
400 validation error.  It also promises an invalid-argument error for an
unknown strategy: `chunk_text` raises the 400 inside its own
`except Exception` handler, which re-raises it as a generic 500 whose
detail prepends "Chunking failed: " to the `str()` rendering of the caught
exception — a 500, never a 400, whatever that rendering is. -/
theorem claim6_counterexample :
    AppPy.process_document (fun _ => []) (fun _ => .ok []) false "".toList
      "sentence_based" 500 50 "tfidf" "m" = .error (400, "Text is required") ∧
    ∀ strExc : Nat × String → String,
      chunk_text strExc (fun _ => []) (fun _ _ _ _ => []) "x".toList "bogus" 200 50
        none none =
        .error (500, "Chunking failed: " ++
          strExc (400, "Unknown chunking strategy: " ++ "bogus")) :=
  ⟨rfl, fun _ => rfl⟩

/-- C6, amended: in `main.py`, empty input yields an empty chunk list under
every known strategy, and an unknown strategy yields an error — but a 500
"Chunking failed: " error whose detail appends the `str()` rendering of the
caught `HTTPException(400, "Unknown chunking strategy: ...")` (the 400 is
swallowed by the catch-all handler), not an invalid-argument error; in
`app.py`, an unknown strategy yields a 400 invalid-argument error, but
empty input text is rejected with a 400 validation error instead of
returning an empty chunk sequence. -/
theorem claim6_amended :
    (∀ (strExc : Nat × String → String)
       (sent_tok : List Char → List (List Char))
       (splitter : List String → Nat → Nat → List Char → List (List Char))
       (strategy : String) (cs ov : Nat) (pcs ccs : Option Nat),
       sent_tok [] = [] → (∀ seps a b, splitter seps a b [] = []) →
       (strategy = "fixed-size" ∨ strategy = "sentence" ∨
        strategy = "hierarchical" ∨ strategy = "paragraph") →
       chunk_text strExc sent_tok splitter [] strategy cs ov pcs ccs = .ok []) ∧
    (∀ (strExc : Nat × String → String)
       (sent_tok : List Char → List (List Char))
       (splitter : List String → Nat → Nat → List Char → List (List Char))
       (text : List Char) (strategy : String) (cs ov : Nat) (pcs ccs : Option Nat),
       ¬ (strategy = "fixed-size" ∨ strategy = "sentence" ∨
          strategy = "hierarchical" ∨ strategy = "paragraph") →
       chunk_text strExc sent_tok splitter text strategy cs ov pcs ccs =
         .error (500, "Chunking failed: " ++
           strExc (400, "Unknown chunking strategy: " ++ strategy))) ∧
    (∀ (sent_tok : List Char → List (List Char))
       (sem_split : List Char → Except Unit (List (List Char))) (bedrock : Bool)
       (text : List Char) (strategy : String) (cs ov : Int) (em emm : String),
       ¬ (pyStrip text).isEmpty →
       ¬ (strategy = "sentence_based" ∨ strategy = "fixed_size" ∨
          strategy = "paragraph_based" ∨ strategy = "semantic_based") →
       AppPy.process_document sent_tok sem_split bedrock text strategy cs ov em emm =
         .error (400, "Invalid chunking strategy")) ∧
    (∀ (sent_tok : List Char → List (List Char))
       (sem_split : List Char → Except Unit (List (List Char))) (bedrock : Bool)
       (text : List Char) (strategy : String) (cs ov : Int) (em emm : String),
       (pyStrip text).isEmpty →
       AppPy.process_document sent_tok sem_split bedrock text strategy cs ov em emm =
         .error (400, "Text is required")) := by
  refine ⟨?_, ?_, ?_, ?_⟩
  · intro strExc sent_tok splitter strategy cs ov pcs ccs hst hsp h3
    rcases h3 with rfl | rfl | rfl | rfl
    · rfl
    · simp [chunk_text, chunk_sentence_based, chunk_sentence_based_go, hst,
        pyStrip, pyStripLeft, pyStripRight]
    · simp [chunk_text, chunk_hierarchical, hsp]
    · rfl
  · intro strExc sent_tok splitter text strategy cs ov pcs ccs h
    push_neg at h
    obtain ⟨h1, h2, h3, h4⟩ := h
    unfold chunk_text
    rw [if_neg h1, if_neg h2, if_neg h3, if_neg h4]
  · intro sent_tok sem_split bedrock text strategy cs ov em emm hne h
    push_neg at h
    obtain ⟨h1, h2, h3, h4⟩ := h
    unfold AppPy.process_document
    rw [if_neg hne, if_neg h1, if_neg h2, if_neg h3, if_neg h4]
  · intro sent_tok sem_split bedrock text strategy cs ov em emm he
    unfold AppPy.process_document
    rw [if_pos he]

/-- C6, witness: empty text with the known strategies yields `ok []`; the
unknown strategies hit the two error paths (the first under the current
starlette rendering `str(e) = "<status>: <detail>"`). -/
theorem claim6_witness :
    chunk_text (fun e => toString e.1 ++ ": " ++ e.2) (fun _ => [])
      (fun _ _ _ _ => []) [] "fixed-size" 200 50 none none = .ok [] ∧
    chunk_text (fun e => toString e.1 ++ ": " ++ e.2) (fun _ => [])
      (fun _ _ _ _ => []) "x".toList "weird" 200 50 none none =
      .error (500, "Chunking failed: 400: Unknown chunking strategy: weird") ∧
    AppPy.process_document (fun _ => []) (fun _ => .ok []) false "x".toList
      "strange" 500 50 "tfidf" "m" = .error (400, "Invalid chunking strategy") := by
  refine ⟨?_, ?_, ?_⟩
  · exact claim6_amended.1 _ _ _ "fixed-size" 200 50 none none rfl
      (fun _ _ _ => rfl) (Or.inl rfl)
  · exact claim6_amended.2.1 (fun e => toString e.1 ++ ": " ++ e.2) _ _
      "x".toList "weird" 200 50 none none (by decide)
  · exact claim6_amended.2.2.1 _ _ false "x".toList "strange" 500 50 "tfidf" "m"
      (by decide) (by decide)

/-! ## Claims C7 and C10 -/

/-- C7: the guardrail statuses follow the claimed thresholds — relevance
`pass` at ratio ≥ 0.7, `warning` at ≥ 0.4, else `fail` (ratio = share of
chunks with a common lowercase word with the query); token length `pass` at
`wordCount * 1.3 ≤ 2000`, `warning` at ≤ 4000, else `fail`; and when no
chunk shares a word the fail message cites 0% relevance. -/
theorem claim7_guardrails (query : List Char) (chunks : List MChunk)
    (prompt : List Char) :
    ((run_guardrails query chunks prompt).map GFinding.status =
      [(if (if chunks.isEmpty then (0 : ℚ) else
            ((chunks.countP (sharesQueryWord (pySplit (pyLower query)))) : ℚ) /
              (chunks.length : ℚ)) ≥ 7/10 then "pass"
        else if (if chunks.isEmpty then (0 : ℚ) else
            ((chunks.countP (sharesQueryWord (pySplit (pyLower query)))) : ℚ) /
              (chunks.length : ℚ)) ≥ 2/5 then "warning"
        else "fail"),
       (if ((pySplit prompt).length : ℚ) * (13/10) ≤ 2000 then "pass"
        else if ((pySplit prompt).length : ℚ) * (13/10) ≤ 4000 then "warning"
        else "fail")]) ∧
    ((∀ c ∈ chunks, ¬ sharesQueryWord (pySplit (pyLower query)) c) →
      (run_guardrails query chunks prompt).head?.map GFinding.message =
        some "Low relevance: 0%") := by
  constructor
  · unfold run_guardrails
    dsimp only
    split_ifs <;> rfl
  · intro hall
    have hcount : chunks.countP (sharesQueryWord (pySplit (pyLower query))) = 0 :=
      List.countP_eq_zero.mpr hall
    unfold run_guardrails
    dsimp only
    rw [hcount]
    have hrat : (if chunks.isEmpty then (0 : ℚ) else
        ((0 : Nat) : ℚ) / (chunks.length : ℚ)) = 0 := by
      split_ifs <;> simp
    rw [hrat]
    rw [if_neg (by norm_num), if_neg (by norm_num)]
    have hpct : (if chunks.isEmpty then 0 else (100 * 0) / chunks.length) = 0 := by
      split_ifs <;> simp
    rw [hpct]
    rfl

/-- C7, witness: a query sharing no words with either of two context chunks
gives the relevance finding status `fail` and the message citing 0%, and a
short prompt passes the token check. -/
theorem claim7_witness :
    (run_guardrails "xyz".toList
      [(⟨"chunk-1", "aa".toList, 0, 2, 1, 2, none, none, none⟩ : MChunk),
       (⟨"chunk-2", "bb".toList, 2, 4, 1, 2, none, none, none⟩ : MChunk)]
      "p".toList).map GFinding.status = ["fail", "pass"] ∧
    (run_guardrails "xyz".toList
      [(⟨"chunk-1", "aa".toList, 0, 2, 1, 2, none, none, none⟩ : MChunk),
       (⟨"chunk-2", "bb".toList, 2, 4, 1, 2, none, none, none⟩ : MChunk)]
      "p".toList).head?.map GFinding.message = some "Low relevance: 0%" := by
  have h := claim7_guardrails "xyz".toList
    [(⟨"chunk-1", "aa".toList, 0, 2, 1, 2, none, none, none⟩ : MChunk),
     (⟨"chunk-2", "bb".toList, 2, 4, 1, 2, none, none, none⟩ : MChunk)]
    "p".toList
  have hc : List.countP (sharesQueryWord (pySplit (pyLower "xyz".toList)))
      [(⟨"chunk-1", "aa".toList, 0, 2, 1, 2, none, none, none⟩ : MChunk),
       (⟨"chunk-2", "bb".toList, 2, 4, 1, 2, none, none, none⟩ : MChunk)] = 0 := by
    decide
  have hp : (pySplit "p".toList).length = 1 := by decide
  constructor
  · rw [h.1, hc, hp]
    norm_num
  · exact h.2 (by decide)

/-- C10: calling the guardrails with an empty context chunk list does not
divide by zero — the relevance ratio is defined as 0 and the
context-relevance finding fails (with the 0% message). -/
theorem claim10_empty_context (query prompt : List Char) :
    (run_guardrails query [] prompt).head? =
      some ⟨"context-relevance", "Context Relevance", "fail",
        "Low relevance: 0%", "high"⟩ := by
  unfold run_guardrails
  dsimp only
  rw [if_neg (by norm_num), if_neg (by norm_num)]
  simp only [List.head?_cons, Option.some.injEq]
  norm_num
  rfl

/-! ## Claim C8 -/

set_option maxRecDepth 100000 in
/-- C8, counterexample to the surfacing half of the claim.  Two backends —
one whose single embedding call fails (one zero-vector substitution), one
that genuinely returns the zero vector (no substitution) — produce
identical return values, so the number of substitutions is not surfaced to
the caller in any form; the source only logs it. -/
theorem claim8_counterexample :
    AppPy.get_bedrock_embeddings_batch (fun _ _ => .error ()) true ["x".toList]
      "amazon.titan-embed-text-v1" 25 =
    AppPy.get_bedrock_embeddings_batch
      (fun _ _ => .ok (List.replicate 1536 (0 : ℚ))) true ["x".toList]
      "amazon.titan-embed-text-v1" 25 ∧
    AppPy.substitutionCount (fun _ _ => .error ()) true ["x".toList]
      "amazon.titan-embed-text-v1" = 1 ∧
    AppPy.substitutionCount (fun _ _ => .ok (List.replicate 1536 (0 : ℚ))) true
      ["x".toList] "amazon.titan-embed-text-v1" = 0 :=
  ⟨rfl, rfl, rfl⟩

/-- C8, amended: on a per-item failure the batch substitutes a zero vector
of the model's tabulated dimensionality instead of aborting — the returned
list is exactly the itemwise map over all texts — but no count of the
substitutions is returned to the caller. -/
theorem claim8_amended (invoke : String → List Char → Except Unit (List ℚ))
    (avail : Bool) (texts : List (List Char)) (model_id : String) (bs : Nat)
    (d : Nat) (hd : AppPy.bedrockEmbeddingDims model_id = some d) :
    AppPy.get_bedrock_embeddings_batch invoke avail texts model_id bs =
      .ok (texts.map (fun t =>
        match AppPy.get_bedrock_embedding invoke avail t model_id with
        | .ok v => v
        | .error _ => List.replicate d (0 : ℚ))) := by
  unfold AppPy.get_bedrock_embeddings_batch
  dsimp only
  have hitem : ∀ t : List Char,
      (match AppPy.get_bedrock_embedding invoke avail t model_id with
       | .ok v => (.ok v : Except Unit (List ℚ))
       | .error _ =>
         match AppPy.bedrockEmbeddingDims model_id with
         | some d' => .ok (List.replicate d' (0 : ℚ))
         | none => .error ()) =
      .ok (match AppPy.get_bedrock_embedding invoke avail t model_id with
           | .ok v => v
           | .error _ => List.replicate d (0 : ℚ)) := by
    intro t
    cases he : AppPy.get_bedrock_embedding invoke avail t model_id with
    | ok v => rfl
    | error u => rw [hd]
  have hbatch : ∀ b : List (List Char),
      b.mapM (fun t =>
        match AppPy.get_bedrock_embedding invoke avail t model_id with
        | .ok v => (.ok v : Except Unit (List ℚ))
        | .error _ =>
          match AppPy.bedrockEmbeddingDims model_id with
          | some d' => .ok (List.replicate d' (0 : ℚ))
          | none => .error ()) =
      .ok (b.map (fun t =>
        match AppPy.get_bedrock_embedding invoke avail t model_id with
        | .ok v => v
        | .error _ => List.replicate d (0 : ℚ))) :=
    exceptMapM_ok _ _ hitem
  rw [exceptMapM_ok _
    (fun b => b.map (fun t =>
      match AppPy.get_bedrock_embedding invoke avail t model_id with
      | .ok v => v
      | .error _ => List.replicate d (0 : ℚ))) hbatch]
  dsimp only
  rw [← List.map_flatten, flatten_batchesOf]

/-- C8, witness: a one-text batch against a failing backend returns the
itemwise value — here the zero vector of the Titan v1 dimensionality. -/
theorem claim8_witness :
    AppPy.get_bedrock_embeddings_batch (fun _ _ => .error ()) true ["x".toList]
      "amazon.titan-embed-text-v1" 25 =
      .ok (["x".toList].map (fun t =>
        match AppPy.get_bedrock_embedding (fun _ _ => .error ()) true t
            "amazon.titan-embed-text-v1" with
        | .ok v => v
        | .error _ => List.replicate 1536 (0 : ℚ))) :=
  claim8_amended (fun _ _ => .error ()) true ["x".toList]
    "amazon.titan-embed-text-v1" 25 1536 rfl
